import Mathlib

/-!
# Verification of `src/memoize.ts` (async memoization layer)

Shallow embedding of the memoizer in `src/src/memoize.ts`:

* the key derivation `JSON.stringify(args)` (line 54) over the admitted
  argument domain `SimpleArgs = (string | number | boolean | undefined)[]`;
* the per-instance `cache` and `queue` maps (lines 41-42), modelled as
  insertion-ordered association lists, mirroring JS `Map` semantics
  (`set` of an existing key updates in place and keeps its position,
  `set` of a new key appends, `delete` removes, iteration order is
  insertion order);
* the body of `memoized` (lines 45-105), split at its `await` point into the
  synchronous prefix (`callPhase1`, lines 48-69) and the leader's completion
  (`settleSuccess` for lines 72-93, `settleFailure` for lines 94-104);
* the management operations `cache_size` and `clear_cache` (lines 107-110).

Times (`new Date()`, `ttl`) are modelled as integers counting whole seconds;
`expiry.setSeconds(expiry.getSeconds() + options.ttl)` becomes `now + ttl`.
The caller-visible effects of a completion (which waiter handles are resolved
or rejected, with which value, and in which order relative to the cache and
queue updates) are recorded as an explicit event list.
-/

namespace MemoizeVerify

/-- JS number values, up to the `SameValueZero` equality that JS `Map` keys
and the memoizer's string keys live under (so `-0` is identified with `0`).
Finite JS numbers are modelled by the integer-valued safe doubles, on which
ES `ToString` is the exact signed decimal representation; the non-finite
values `NaN`, `Infinity` and `-Infinity` are explicit constructors because
`JSON.stringify` serializes each of them as `null`. -/
inductive JSNum where
  | int : Int → JSNum
  | nan : JSNum
  | posInf : JSNum
  | negInf : JSNum
deriving DecidableEq, Repr

/-- The admitted argument domain of the memoizer, `SimpleArgs` elements from
`src/src/memoize.ts` line 4: `string | number | boolean | undefined`. -/
inductive JSPrim where
  | str : String → JSPrim
  | num : JSNum → JSPrim
  | bool : Bool → JSPrim
  | undef : JSPrim
deriving DecidableEq, Repr

/-- The decimal digit characters `'0'..'9'` (ES `ToString` digit output). -/
def decDigit : Nat → Char
  | 0 => '0' | 1 => '1' | 2 => '2' | 3 => '3' | 4 => '4'
  | 5 => '5' | 6 => '6' | 7 => '7' | 8 => '8' | 9 => '9'
  | _ => '*'

/-- The lowercase hexadecimal digit characters used by `JSON.stringify`'s
`\u00XX` escapes for control characters. -/
def hexDigit : Nat → Char
  | 0 => '0' | 1 => '1' | 2 => '2' | 3 => '3' | 4 => '4'
  | 5 => '5' | 6 => '6' | 7 => '7' | 8 => '8' | 9 => '9'
  | 10 => 'a' | 11 => 'b' | 12 => 'c' | 13 => 'd' | 14 => 'e' | 15 => 'f'
  | _ => '*'

/-- Base-10 digits, least significant first; the fuel (any bound above the
number) keeps the recursion structural so that terms evaluate by `decide`. -/
def natDigitsRevFuel : Nat → Nat → List Nat
  | 0, _ => []
  | fuel + 1, n => if n < 10 then [n] else (n % 10) :: natDigitsRevFuel fuel (n / 10)

/-- Base-10 digits of a natural number, least significant first. -/
def natDigitsRev (n : Nat) : List Nat :=
  natDigitsRevFuel (n + 1) n

theorem natDigitsRevFuel_irrel : ∀ f1 f2 n, n < f1 → n < f2 →
    natDigitsRevFuel f1 n = natDigitsRevFuel f2 n := by
  intro f1
  induction f1 with
  | zero => intro f2 n h; omega
  | succ f ih =>
    intro f2 n h1 h2
    match f2, h2 with
    | f2' + 1, _ =>
      simp only [natDigitsRevFuel]
      by_cases h10 : n < 10
      · simp [h10]
      · have hdiv : n / 10 < n := Nat.div_lt_self (by omega) (by norm_num)
        simp only [h10, if_false]
        rw [ih f2' (n / 10) (by omega) (by omega)]

/-- The intended recursive unfolding of `natDigitsRev`. -/
theorem natDigitsRev_eq (n : Nat) :
    natDigitsRev n = if n < 10 then [n] else (n % 10) :: natDigitsRev (n / 10) := by
  have h1 : natDigitsRev n = if n < 10 then [n] else (n % 10) :: natDigitsRevFuel n (n / 10) := rfl
  rw [h1]
  by_cases h10 : n < 10
  · simp [h10]
  · have hdiv : n / 10 < n := Nat.div_lt_self (by omega) (by norm_num)
    simp only [h10, if_false]
    rw [natDigitsRevFuel_irrel n (n / 10 + 1) (n / 10) (by omega) (by omega)]
    rfl

/-- ES `ToString` of a non-negative integer-valued number: its decimal digits. -/
def natReprChars (n : Nat) : List Char :=
  (natDigitsRev n).reverse.map decDigit

/-- ES `ToString` of an integer-valued number (`'-'` followed by the decimal
magnitude for negative values). -/
def intReprChars : Int → List Char
  | Int.ofNat n => natReprChars n
  | Int.negSucc m => '-' :: natReprChars (m + 1)

/-- `JSON.stringify`'s escaping of one string character (`QuoteJSONString`):
quote and backslash get two-character escapes, the five named control
characters get their short escapes, the remaining control characters get
`\u00XX` with lowercase hex digits, and every other character is copied. -/
def escapeChar (c : Char) : List Char :=
  if c = '"' then ['\\', '"']
  else if c = '\\' then ['\\', '\\']
  else if c.toNat = 8 then ['\\', 'b']
  else if c.toNat = 9 then ['\\', 't']
  else if c.toNat = 10 then ['\\', 'n']
  else if c.toNat = 12 then ['\\', 'f']
  else if c.toNat = 13 then ['\\', 'r']
  else if c.toNat < 32 then ['\\', 'u', '0', '0', hexDigit (c.toNat / 16), hexDigit (c.toNat % 16)]
  else [c]

/-- `JSON.stringify` of a string value: escaped body between double quotes. -/
def quoteChars (s : List Char) : List Char :=
  '"' :: (s.map escapeChar).flatten ++ ['"']

/-- `JSON.stringify` of one `SimpleArgs` element: strings are quoted and
escaped, finite numbers print in decimal, booleans print as `true`/`false`,
and `undefined` inside an array — as well as every non-finite number —
serializes as `null`. -/
def primChars : JSPrim → List Char
  | JSPrim.str s => quoteChars s.data
  | JSPrim.num (JSNum.int n) => intReprChars n
  | JSPrim.num JSNum.nan => ['n', 'u', 'l', 'l']
  | JSPrim.num JSNum.posInf => ['n', 'u', 'l', 'l']
  | JSPrim.num JSNum.negInf => ['n', 'u', 'l', 'l']
  | JSPrim.bool true => ['t', 'r', 'u', 'e']
  | JSPrim.bool false => ['f', 'a', 'l', 's', 'e']
  | JSPrim.undef => ['n', 'u', 'l', 'l']

/-- Comma-separated concatenation, as in JSON array element serialization. -/
def joinComma : List (List Char) → List Char
  | [] => []
  | [x] => x
  | x :: xs => x ++ ',' :: joinComma xs

/-- Character sequence of `JSON.stringify(args)` for an argument list. -/
def stringifyChars (l : List JSPrim) : List Char :=
  '[' :: joinComma (l.map primChars) ++ [']']

/-- `const key = JSON.stringify(args)` — line 54 of `src/src/memoize.ts`. -/
def jsonStringify (l : List JSPrim) : String :=
  String.mk (stringifyChars l)

/-!
## A decoder for the key format

To show where the key derivation is and is not injective we give a partial
inverse of `stringifyChars`.  The decoder only needs to succeed on encoder
outputs; `null` tokens decode to `undef` (which is why non-finite numbers,
whose encoding is also `null`, are outside the injective domain).
-/

/-- Numeric value of a lowercase hexadecimal digit character. -/
def hexVal? (c : Char) : Option Nat :=
  if 48 ≤ c.toNat ∧ c.toNat ≤ 57 then some (c.toNat - 48)
  else if 97 ≤ c.toNat ∧ c.toNat ≤ 102 then some (c.toNat - 87)
  else none

/-- Inverse of the two-character escapes emitted by `escapeChar`. -/
def unescape1? (e : Char) : Option Char :=
  if e = '"' then some '"'
  else if e = '\\' then some '\\'
  else if e = 'b' then some '\x08'
  else if e = 't' then some '\x09'
  else if e = 'n' then some '\x0a'
  else if e = 'f' then some '\x0c'
  else if e = 'r' then some '\x0d'
  else none

/-- Parse the escape sequence following a backslash, returning the unescaped
character and the remaining input. -/
def parseEsc1 : List Char → Option (Char × List Char)
  | [] => none
  | e :: r =>
    if e = 'u' then
      match r with
      | h1 :: h2 :: h3 :: h4 :: r2 =>
        match hexVal? h1, hexVal? h2, hexVal? h3, hexVal? h4 with
        | some v1, some v2, some v3, some v4 =>
          some (Char.ofNat (((v1 * 16 + v2) * 16 + v3) * 16 + v4), r2)
        | _, _, _, _ => none
      | _ => none
    else (unescape1? e).map (fun c => (c, r))

/-- Parse a quoted-string body up to (and consuming) the closing quote,
undoing `escapeChar`; fuelled to keep the recursion structural. -/
def parseStrBody : Nat → List Char → Option (List Char × List Char)
  | 0, _ => none
  | _ + 1, [] => none
  | fuel + 1, c :: rest =>
    if c = '"' then some ([], rest)
    else if c = '\\' then
      match parseEsc1 rest with
      | some (c2, r) => (parseStrBody fuel r).map (fun (p : List Char × List Char) => (c2 :: p.1, p.2))
      | none => none
    else (parseStrBody fuel rest).map (fun p => (c :: p.1, p.2))

/-- Greedily consume decimal digits, accumulating their value. -/
def takeDigits : List Char → Nat → Nat × List Char
  | [], acc => (acc, [])
  | c :: cs, acc =>
    if 48 ≤ c.toNat ∧ c.toNat ≤ 57 then takeDigits cs (acc * 10 + (c.toNat - 48))
    else (acc, c :: cs)

/-- Whether a character is a decimal digit (used to delimit number tokens). -/
def isDigitChar (c : Char) : Bool :=
  decide (48 ≤ c.toNat ∧ c.toNat ≤ 57)

/-- Parse one serialized `SimpleArgs` element and return the rest of the
input. -/
def parsePrim : List Char → Option (JSPrim × List Char)
  | [] => none
  | c :: rest =>
    if c = '"' then
      (parseStrBody (rest.length + 1) rest).map (fun p => (JSPrim.str (String.mk p.1), p.2))
    else if c = 't' then
      match rest with
      | 'r' :: 'u' :: 'e' :: r => some (JSPrim.bool true, r)
      | _ => none
    else if c = 'f' then
      match rest with
      | 'a' :: 'l' :: 's' :: 'e' :: r => some (JSPrim.bool false, r)
      | _ => none
    else if c = 'n' then
      match rest with
      | 'u' :: 'l' :: 'l' :: r => some (JSPrim.undef, r)
      | _ => none
    else if c = '-' then
      match rest with
      | c2 :: _ =>
        if isDigitChar c2 then
          let p := takeDigits rest 0
          some (JSPrim.num (JSNum.int (-(p.1 : Int))), p.2)
        else none
      | [] => none
    else if isDigitChar c then
      let p := takeDigits (c :: rest) 0
      some (JSPrim.num (JSNum.int (p.1 : Int)), p.2)
    else none

/-- Parse a comma-separated element sequence terminated by `']'`; the fuel
bounds the number of elements. -/
def parseItems : Nat → List Char → Option (List JSPrim)
  | 0, _ => none
  | fuel + 1, s =>
    match parsePrim s with
    | none => none
    | some (p, r) =>
      match r with
      | [']'] => some [p]
      | ',' :: r2 => (parseItems fuel r2).map (fun l => p :: l)
      | _ => none

/-- Decode a serialized argument list. -/
def decodeList (s : List Char) : Option (List JSPrim) :=
  match s with
  | '[' :: rest => if rest = [']'] then some [] else parseItems rest.length rest
  | _ => none

/-- A `SimpleArgs` element whose key encoding is lossless: everything except
the non-finite numbers, which `JSON.stringify` flattens to `null`. -/
def finitePrim : JSPrim → Bool
  | JSPrim.num JSNum.nan => false
  | JSPrim.num JSNum.posInf => false
  | JSPrim.num JSNum.negInf => false
  | _ => true

/-!
## Round-trip lemmas: `decodeList` inverts `stringifyChars` on finite inputs
-/

theorem natDigitsRev_mem_lt (n : Nat) : ∀ d ∈ natDigitsRev n, d < 10 := by
  induction n using Nat.strong_induction_on with
  | _ n ih =>
    rw [natDigitsRev_eq]
    by_cases h10 : n < 10
    · simp [h10]
    · have hdiv : n / 10 < n := Nat.div_lt_self (by omega) (by norm_num)
      simp only [h10, if_false]
      intro d hd
      rcases List.mem_cons.mp hd with h | h
      · subst h; exact Nat.mod_lt _ (by norm_num)
      · exact ih (n / 10) hdiv d h

theorem natDigitsRev_ne_nil (n : Nat) : natDigitsRev n ≠ [] := by
  rw [natDigitsRev_eq]
  by_cases h10 : n < 10 <;> simp [h10]

theorem foldl_natDigitsRev (n : Nat) : ∀ acc : Nat,
    (natDigitsRev n).reverse.foldl (fun a d => a * 10 + d) acc
      = acc * 10 ^ (natDigitsRev n).length + n := by
  induction n using Nat.strong_induction_on with
  | _ n ih =>
    intro acc
    rw [natDigitsRev_eq]
    by_cases h10 : n < 10
    · simp [h10]
    · have hdiv : n / 10 < n := Nat.div_lt_self (by omega) (by norm_num)
      simp only [h10, if_false, List.reverse_cons, List.foldl_append, List.foldl_cons,
        List.foldl_nil, List.length_cons]
      rw [ih (n / 10) hdiv acc]
      have : (acc * 10 ^ (natDigitsRev (n / 10)).length + n / 10) * 10 + n % 10
          = acc * (10 ^ (natDigitsRev (n / 10)).length * 10) + (n / 10 * 10 + n % 10) := by ring
      have h2 : n / 10 * 10 + n % 10 = n := by omega
      rw [this, h2, pow_succ]

theorem decDigit_toNat : ∀ d, d < 10 → (decDigit d).toNat = 48 + d := by decide

theorem decDigit_facts : ∀ d, d < 10 →
    decDigit d ≠ '"' ∧ decDigit d ≠ 't' ∧ decDigit d ≠ 'f' ∧ decDigit d ≠ 'n' ∧
    decDigit d ≠ '-' ∧ isDigitChar (decDigit d) = true := by decide

theorem hexVal_hexDigit : ∀ v, v < 16 → hexVal? (hexDigit v) = some v := by decide

theorem takeDigits_append (ds : List Nat) : ∀ acc : Nat, (∀ d ∈ ds, d < 10) →
    ∀ rest : List Char, (∀ c, rest.head? = some c → isDigitChar c = false) →
    takeDigits (ds.map decDigit ++ rest) acc = (ds.foldl (fun a d => a * 10 + d) acc, rest) := by
  induction ds with
  | nil =>
    intro acc _ rest hrest
    match rest with
    | [] => rfl
    | c :: cs =>
      have hc := hrest c rfl
      simp only [isDigitChar, decide_eq_false_iff_not] at hc
      simp [takeDigits, hc]
  | cons d ds ih =>
    intro acc hds rest hrest
    have hd : d < 10 := hds d (List.mem_cons_self d ds)
    have htn := decDigit_toNat d hd
    simp only [List.map_cons, List.cons_append, takeDigits, htn]
    rw [if_pos (by omega)]
    have : 48 + d - 48 = d := by omega
    rw [this]
    exact ih (acc * 10 + d) (fun x hx => hds x (List.mem_cons_of_mem _ hx)) rest hrest

theorem takeDigits_natRepr (n : Nat) (rest : List Char)
    (hrest : ∀ c, rest.head? = some c → isDigitChar c = false) :
    takeDigits (natReprChars n ++ rest) 0 = (n, rest) := by
  unfold natReprChars
  rw [takeDigits_append (natDigitsRev n).reverse 0
    (fun d hd => natDigitsRev_mem_lt n d (List.mem_reverse.mp hd)) rest hrest]
  rw [foldl_natDigitsRev n 0]
  simp

theorem parseStrBody_quote (s : List Char) : ∀ (fuel : Nat) (r : List Char),
    ((s.map escapeChar).flatten).length < fuel →
    parseStrBody fuel ((s.map escapeChar).flatten ++ '"' :: r) = some (s, r) := by
  induction s with
  | nil =>
    intro fuel r hfuel
    obtain ⟨f, rfl⟩ : ∃ f, fuel = f + 1 := ⟨fuel - 1, by omega⟩
    rfl
  | cons c s' ih =>
    intro fuel r hfuel
    simp only [List.map_cons, List.flatten_cons, List.length_append, List.append_assoc] at hfuel ⊢
    by_cases hq : c = '"'
    · obtain rfl := hq
      rw [show escapeChar '"' = ['\\', '"'] from rfl] at hfuel ⊢
      simp only [List.length_cons, List.length_nil] at hfuel
      obtain ⟨f, rfl⟩ : ∃ f, fuel = f + 1 := ⟨fuel - 1, by omega⟩
      have step : parseStrBody (f + 1) (['\\', '"'] ++ ((s'.map escapeChar).flatten ++ '"' :: r))
          = (parseStrBody f ((s'.map escapeChar).flatten ++ '"' :: r)).map
              (fun p => ('"' :: p.1, p.2)) := rfl
      rw [step, ih f r (by omega)]
      rfl
    · by_cases hb : c = '\\'
      · obtain rfl := hb
        rw [show escapeChar '\\' = ['\\', '\\'] from rfl] at hfuel ⊢
        simp only [List.length_cons, List.length_nil] at hfuel
        obtain ⟨f, rfl⟩ : ∃ f, fuel = f + 1 := ⟨fuel - 1, by omega⟩
        have step : parseStrBody (f + 1) (['\\', '\\'] ++ ((s'.map escapeChar).flatten ++ '"' :: r))
            = (parseStrBody f ((s'.map escapeChar).flatten ++ '"' :: r)).map
                (fun p => ('\\' :: p.1, p.2)) := rfl
        rw [step, ih f r (by omega)]
        rfl
      · by_cases h8 : c.toNat = 8
        · obtain rfl : c = '\x08' := by rw [← Char.ofNat_toNat c, h8]
          rw [show escapeChar '\x08' = ['\\', 'b'] from rfl] at hfuel ⊢
          simp only [List.length_cons, List.length_nil] at hfuel
          obtain ⟨f, rfl⟩ : ∃ f, fuel = f + 1 := ⟨fuel - 1, by omega⟩
          have step : parseStrBody (f + 1) (['\\', 'b'] ++ ((s'.map escapeChar).flatten ++ '"' :: r))
              = (parseStrBody f ((s'.map escapeChar).flatten ++ '"' :: r)).map
                  (fun p => ('\x08' :: p.1, p.2)) := rfl
          rw [step, ih f r (by omega)]
          rfl
        · by_cases h9 : c.toNat = 9
          · obtain rfl : c = '\x09' := by rw [← Char.ofNat_toNat c, h9]
            rw [show escapeChar '\x09' = ['\\', 't'] from rfl] at hfuel ⊢
            simp only [List.length_cons, List.length_nil] at hfuel
            obtain ⟨f, rfl⟩ : ∃ f, fuel = f + 1 := ⟨fuel - 1, by omega⟩
            have step : parseStrBody (f + 1) (['\\', 't'] ++ ((s'.map escapeChar).flatten ++ '"' :: r))
                = (parseStrBody f ((s'.map escapeChar).flatten ++ '"' :: r)).map
                    (fun p => ('\x09' :: p.1, p.2)) := rfl
            rw [step, ih f r (by omega)]
            rfl
          · by_cases h10 : c.toNat = 10
            · obtain rfl : c = '\x0a' := by rw [← Char.ofNat_toNat c, h10]
              rw [show escapeChar '\x0a' = ['\\', 'n'] from rfl] at hfuel ⊢
              simp only [List.length_cons, List.length_nil] at hfuel
              obtain ⟨f, rfl⟩ : ∃ f, fuel = f + 1 := ⟨fuel - 1, by omega⟩
              have step : parseStrBody (f + 1) (['\\', 'n'] ++ ((s'.map escapeChar).flatten ++ '"' :: r))
                  = (parseStrBody f ((s'.map escapeChar).flatten ++ '"' :: r)).map
                      (fun p => ('\x0a' :: p.1, p.2)) := rfl
              rw [step, ih f r (by omega)]
              rfl
            · by_cases h12 : c.toNat = 12
              · obtain rfl : c = '\x0c' := by rw [← Char.ofNat_toNat c, h12]
                rw [show escapeChar '\x0c' = ['\\', 'f'] from rfl] at hfuel ⊢
                simp only [List.length_cons, List.length_nil] at hfuel
                obtain ⟨f, rfl⟩ : ∃ f, fuel = f + 1 := ⟨fuel - 1, by omega⟩
                have step : parseStrBody (f + 1) (['\\', 'f'] ++ ((s'.map escapeChar).flatten ++ '"' :: r))
                    = (parseStrBody f ((s'.map escapeChar).flatten ++ '"' :: r)).map
                        (fun p => ('\x0c' :: p.1, p.2)) := rfl
                rw [step, ih f r (by omega)]
                rfl
              · by_cases h13 : c.toNat = 13
                · obtain rfl : c = '\x0d' := by rw [← Char.ofNat_toNat c, h13]
                  rw [show escapeChar '\x0d' = ['\\', 'r'] from rfl] at hfuel ⊢
                  simp only [List.length_cons, List.length_nil] at hfuel
                  obtain ⟨f, rfl⟩ : ∃ f, fuel = f + 1 := ⟨fuel - 1, by omega⟩
                  have step : parseStrBody (f + 1) (['\\', 'r'] ++ ((s'.map escapeChar).flatten ++ '"' :: r))
                      = (parseStrBody f ((s'.map escapeChar).flatten ++ '"' :: r)).map
                          (fun p => ('\x0d' :: p.1, p.2)) := rfl
                  rw [step, ih f r (by omega)]
                  rfl
                · by_cases h32 : c.toNat < 32
                  · have hesc : escapeChar c
                        = ['\\', 'u', '0', '0', hexDigit (c.toNat / 16), hexDigit (c.toNat % 16)] := by
                      unfold escapeChar
                      rw [if_neg hq, if_neg hb, if_neg h8, if_neg h9, if_neg h10, if_neg h12,
                        if_neg h13, if_pos h32]
                    rw [hesc] at hfuel ⊢
                    simp only [List.length_cons, List.length_nil] at hfuel
                    obtain ⟨f, rfl⟩ : ∃ f, fuel = f + 1 := ⟨fuel - 1, by omega⟩
                    have ha : hexVal? (hexDigit (c.toNat / 16)) = some (c.toNat / 16) :=
                      hexVal_hexDigit _ (by omega)
                    have hc : hexVal? (hexDigit (c.toNat % 16)) = some (c.toNat % 16) :=
                      hexVal_hexDigit _ (Nat.mod_lt _ (by norm_num))
                    have step : parseStrBody (f + 1)
                        (['\\', 'u', '0', '0', hexDigit (c.toNat / 16), hexDigit (c.toNat % 16)]
                          ++ ((s'.map escapeChar).flatten ++ '"' :: r))
                        = (parseStrBody f ((s'.map escapeChar).flatten ++ '"' :: r)).map
                            (fun p => (c :: p.1, p.2)) := by
                      show (match parseEsc1 ('u' :: '0' :: '0' :: hexDigit (c.toNat / 16)
                            :: hexDigit (c.toNat % 16)
                            :: ((s'.map escapeChar).flatten ++ '"' :: r)) with
                        | some (c2, rr) => (parseStrBody f rr).map (fun (p : List Char × List Char) => (c2 :: p.1, p.2))
                        | none => none) = _
                      have hesc1 : parseEsc1 ('u' :: '0' :: '0' :: hexDigit (c.toNat / 16)
                            :: hexDigit (c.toNat % 16)
                            :: ((s'.map escapeChar).flatten ++ '"' :: r))
                          = some (c, (s'.map escapeChar).flatten ++ '"' :: r) := by
                        show (match hexVal? '0', hexVal? '0', hexVal? (hexDigit (c.toNat / 16)),
                            hexVal? (hexDigit (c.toNat % 16)) with
                          | some v1, some v2, some v3, some v4 =>
                            some (Char.ofNat (((v1 * 16 + v2) * 16 + v3) * 16 + v4),
                              (s'.map escapeChar).flatten ++ '"' :: r)
                          | _, _, _, _ => none) = _
                        rw [show hexVal? '0' = some 0 from rfl, ha, hc]
                        have hval : ((0 * 16 + 0) * 16 + c.toNat / 16) * 16 + c.toNat % 16
                            = c.toNat := by omega
                        show some (Char.ofNat (((0 * 16 + 0) * 16 + c.toNat / 16) * 16
                            + c.toNat % 16), (s'.map escapeChar).flatten ++ '"' :: r) = _
                        rw [hval, Char.ofNat_toNat]
                      rw [hesc1]
                    rw [step, ih f r (by omega)]
                    rfl
                  · have hesc : escapeChar c = [c] := by
                      unfold escapeChar
                      rw [if_neg hq, if_neg hb, if_neg h8, if_neg h9, if_neg h10, if_neg h12,
                        if_neg h13, if_neg h32]
                    rw [hesc] at hfuel ⊢
                    simp only [List.length_cons, List.length_nil] at hfuel
                    obtain ⟨f, rfl⟩ : ∃ f, fuel = f + 1 := ⟨fuel - 1, by omega⟩
                    have step : parseStrBody (f + 1)
                        ([c] ++ ((s'.map escapeChar).flatten ++ '"' :: r))
                        = (parseStrBody f ((s'.map escapeChar).flatten ++ '"' :: r)).map
                            (fun p => (c :: p.1, p.2)) := by
                      show parseStrBody (f + 1)
                          (c :: ((s'.map escapeChar).flatten ++ '"' :: r)) = _
                      simp only [parseStrBody]
                      rw [if_neg hq, if_neg hb]
                    rw [step, ih f r (by omega)]
                    rfl

theorem natReprChars_cons (n : Nat) : ∃ d ds, d < 10 ∧
    natReprChars n = decDigit d :: ds.map decDigit ∧ (∀ x ∈ ds, x < 10) ∧
    (natDigitsRev n).reverse = d :: ds := by
  cases h : (natDigitsRev n).reverse with
  | nil => exact absurd (List.reverse_eq_nil_iff.mp h) (natDigitsRev_ne_nil n)
  | cons d ds =>
    refine ⟨d, ds, ?_, ?_, ?_, rfl⟩
    · exact natDigitsRev_mem_lt n d (List.mem_reverse.mp (h ▸ List.mem_cons_self d ds))
    · unfold natReprChars; rw [h]; rfl
    · intro x hx
      exact natDigitsRev_mem_lt n x (List.mem_reverse.mp (h ▸ List.mem_cons_of_mem d hx))

/-- A delimiter that ends a number token: `','` or `']'`. -/
def isDelim (r : List Char) : Prop :=
  r.head? = some ',' ∨ r.head? = some ']'

theorem isDelim_not_digit {r : List Char} (hr : isDelim r) :
    ∀ c, r.head? = some c → isDigitChar c = false := by
  intro c hc
  rcases hr with h | h <;> rw [hc] at h <;> injection h with h <;> subst h <;> decide

theorem takeDigits_natRepr_delim (n : Nat) (r : List Char) (hr : isDelim r) :
    takeDigits (natReprChars n ++ r) 0 = (n, r) :=
  takeDigits_natRepr n r (isDelim_not_digit hr)

theorem parsePrim_append (p : JSPrim) (hfin : finitePrim p = true) (r : List Char)
    (hr : isDelim r) : parsePrim (primChars p ++ r) = some (p, r) := by
  match p with
  | JSPrim.str s =>
    have hshape : primChars (JSPrim.str s) ++ r
        = '"' :: ((s.data.map escapeChar).flatten ++ '"' :: r) := by
      simp [primChars, quoteChars]
    rw [hshape]
    have step : parsePrim ('"' :: ((s.data.map escapeChar).flatten ++ '"' :: r))
        = (parseStrBody (((s.data.map escapeChar).flatten ++ '"' :: r).length + 1)
            ((s.data.map escapeChar).flatten ++ '"' :: r)).map
          (fun q => (JSPrim.str (String.mk q.1), q.2)) := rfl
    rw [step, parseStrBody_quote s.data _ r (by simp; omega)]
    rfl
  | JSPrim.bool true => exact rfl
  | JSPrim.bool false => exact rfl
  | JSPrim.undef => exact rfl
  | JSPrim.num (JSNum.int (Int.ofNat n)) =>
    obtain ⟨d, ds, hd10, hrepr, hds10, _⟩ := natReprChars_cons n
    show parsePrim (natReprChars n ++ r) = some (JSPrim.num (JSNum.int (Int.ofNat n)), r)
    rw [hrepr]
    obtain ⟨f1, f2, f3, f4, f5, f6⟩ := decDigit_facts d hd10
    show parsePrim (decDigit d :: (ds.map decDigit ++ r))
        = some (JSPrim.num (JSNum.int (Int.ofNat n)), r)
    simp only [parsePrim]
    rw [if_neg f1, if_neg f2, if_neg f3, if_neg f4, if_neg f5, if_pos f6]
    have ht : takeDigits (decDigit d :: (ds.map decDigit ++ r)) 0 = (n, r) := by
      have := takeDigits_natRepr_delim n r hr
      rw [hrepr] at this
      simpa using this
    simp only [ht]
    rfl
  | JSPrim.num (JSNum.int (Int.negSucc m)) =>
    obtain ⟨d, ds, hd10, hrepr, hds10, _⟩ := natReprChars_cons (m + 1)
    show parsePrim ('-' :: (natReprChars (m + 1) ++ r))
        = some (JSPrim.num (JSNum.int (Int.negSucc m)), r)
    rw [hrepr]
    show parsePrim ('-' :: (decDigit d :: (ds.map decDigit ++ r)))
        = some (JSPrim.num (JSNum.int (Int.negSucc m)), r)
    obtain ⟨f1, f2, f3, f4, f5, f6⟩ := decDigit_facts d hd10
    simp only [parsePrim]
    rw [if_neg (by decide : ¬('-' : Char) = '"'), if_neg (by decide : ¬('-' : Char) = 't'),
      if_neg (by decide : ¬('-' : Char) = 'f'), if_neg (by decide : ¬('-' : Char) = 'n')]
    simp only [if_true, if_pos f6]
    have ht : takeDigits (decDigit d :: (ds.map decDigit ++ r)) 0 = (m + 1, r) := by
      have := takeDigits_natRepr_delim (m + 1) r hr
      rw [hrepr] at this
      simpa using this
    simp only [ht]
    have hneg : -(((m + 1 : Nat) : Int)) = Int.negSucc m := by
      rw [Int.negSucc_eq]
      push_cast
      ring
    rw [hneg]

theorem primChars_ne_nil (p : JSPrim) : primChars p ≠ [] := by
  match p with
  | JSPrim.str s => simp [primChars, quoteChars]
  | JSPrim.num (JSNum.int (Int.ofNat k)) =>
    obtain ⟨d, ds, _, hrepr, _, _⟩ := natReprChars_cons k
    show natReprChars k ≠ []
    rw [hrepr]
    simp
  | JSPrim.num (JSNum.int (Int.negSucc m)) => simp [primChars, intReprChars]
  | JSPrim.num JSNum.nan => simp [primChars]
  | JSPrim.num JSNum.posInf => simp [primChars]
  | JSPrim.num JSNum.negInf => simp [primChars]
  | JSPrim.bool true => simp [primChars]
  | JSPrim.bool false => simp [primChars]
  | JSPrim.undef => simp [primChars]

theorem length_le_joinComma (l : List JSPrim) :
    l.length ≤ (joinComma (l.map primChars)).length := by
  induction l with
  | nil => simp [joinComma]
  | cons p tl ih =>
    have hp1 : 1 ≤ (primChars p).length :=
      List.length_pos.mpr (primChars_ne_nil p)
    match tl with
    | [] =>
      show (p :: ([] : List JSPrim)).length ≤ (joinComma [primChars p]).length
      simpa [joinComma] using hp1
    | q :: tl' =>
      show (p :: q :: tl').length
          ≤ (primChars p ++ ',' :: joinComma ((q :: tl').map primChars)).length
      have := ih
      simp only [List.length_cons, List.length_append] at this ⊢
      omega

theorem parseItems_join (l : List JSPrim) : ∀ fuel, l ≠ [] →
    (∀ p ∈ l, finitePrim p = true) → l.length ≤ fuel →
    parseItems fuel (joinComma (l.map primChars) ++ [']']) = some l := by
  induction l with
  | nil => intro fuel h; exact absurd rfl h
  | cons p tl ih =>
    intro fuel _ hfin hlen
    have hfuel1 : 1 ≤ fuel := le_trans (by simp) hlen
    obtain ⟨f, rfl⟩ : ∃ f, fuel = f + 1 := ⟨fuel - 1, by omega⟩
    match tl with
    | [] =>
      show parseItems (f + 1) (primChars p ++ [']']) = some [p]
      have hp := parsePrim_append p (hfin p (by simp)) [']'] (Or.inr rfl)
      simp only [parseItems, hp]
    | q :: tl' =>
      show parseItems (f + 1)
          ((primChars p ++ ',' :: joinComma ((q :: tl').map primChars)) ++ [']'])
          = some (p :: q :: tl')
      rw [List.append_assoc, List.cons_append]
      have hp := parsePrim_append p (hfin p (by simp))
        (',' :: (joinComma ((q :: tl').map primChars) ++ [']'])) (Or.inl rfl)
      simp only [parseItems, hp]
      have hlen2 : (q :: tl').length ≤ f := by
        simp only [List.length_cons] at hlen ⊢
        omega
      rw [ih f (by simp) (fun x hx => hfin x (List.mem_cons_of_mem _ hx)) hlen2]
      rfl

theorem decodeList_stringify (l : List JSPrim) (hfin : ∀ p ∈ l, finitePrim p = true) :
    decodeList (stringifyChars l) = some l := by
  match l with
  | [] => rfl
  | p :: tl =>
    show decodeList ('[' :: (joinComma ((p :: tl).map primChars) ++ [']'])) = some (p :: tl)
    have hlen : (p :: tl).length ≤ (joinComma ((p :: tl).map primChars)).length :=
      length_le_joinComma (p :: tl)
    have hne : joinComma ((p :: tl).map primChars) ++ [']'] ≠ [']'] := by
      intro h
      have := congrArg List.length h
      simp only [List.length_append, List.length_cons, List.length_nil] at this
      simp only [List.length_cons] at hlen
      omega
    show (if joinComma ((p :: tl).map primChars) ++ [']'] = [']'] then some []
        else parseItems (joinComma ((p :: tl).map primChars) ++ [']']).length
          (joinComma ((p :: tl).map primChars) ++ [']'])) = some (p :: tl)
    rw [if_neg hne]
    exact parseItems_join (p :: tl) _ (by simp) hfin
      (by simp only [List.length_append, List.length_cons, List.length_nil] at hlen ⊢; omega)

theorem jsonStringify_injOn (l1 l2 : List JSPrim)
    (h1 : ∀ p ∈ l1, finitePrim p = true) (h2 : ∀ p ∈ l2, finitePrim p = true)
    (heq : jsonStringify l1 = jsonStringify l2) : l1 = l2 := by
  have hchars : stringifyChars l1 = stringifyChars l2 := by
    unfold jsonStringify at heq
    injection heq
  have d1 := decodeList_stringify l1 h1
  have d2 := decodeList_stringify l2 h2
  rw [hchars, d2] at d1
  injection d1 with d1
  exact d1.symm

/-!
## The memoizer state machine

State of one memoizer instance: the `cache` and `queue` maps of lines 41-42,
as insertion-ordered association lists (JS `Map` iteration order).
-/

/-- The `options` object of `memoize_async` (`ttl` seconds, `size` entries).
Both fields are JS numbers; no validation is applied anywhere in the source,
so no constraint is imposed here either. -/
structure MemoOptions where
  ttl : Int
  size : Int
deriving DecidableEq, Repr

/-- One stored cache entry: `{ value, expiry }` (line 41). -/
structure CacheEntry (R : Type) where
  value : R
  expiry : Int
deriving DecidableEq, Repr

/-- `Map.get`: the value at the (unique) occurrence of a key. -/
def mapGet {α : Type} : List (String × α) → String → Option α
  | [], _ => none
  | (k, v) :: rest, key => if k = key then some v else mapGet rest key

/-- `Map.set`: update an existing key in place (keeping its insertion
position) or append a new binding at the end. -/
def mapSet {α : Type} : List (String × α) → String → α → List (String × α)
  | [], key, v => [(key, v)]
  | (k, w) :: rest, key, v =>
    if k = key then (k, v) :: rest else (k, w) :: mapSet rest key v

/-- `Map.delete`: remove the (first) binding of a key. -/
def mapDelete {α : Type} : List (String × α) → String → List (String × α)
  | [], _ => []
  | (k, w) :: rest, key => if k = key then rest else (k, w) :: mapDelete rest key

/-- Per-instance state: `cache` (line 41) and `queue` (line 42); queue values
are the registered waiters' completion handles, modelled by opaque ids. -/
structure MemoState (R : Type) where
  cache : List (String × CacheEntry R)
  queue : List (String × List Nat)
deriving DecidableEq, Repr

/-- The freshly constructed state: both maps empty (lines 41-42). -/
def initState (R : Type) : MemoState R := ⟨[], []⟩

/-- A memoizer as returned by `memoize_async`: the captured options plus the
owned mutable state. -/
structure Memoizer (R : Type) where
  options : MemoOptions
  state : MemoState R
deriving DecidableEq, Repr

/-- `memoize_async(options, f)`, lines 37-43: allocates fresh empty `cache`
and `queue` maps and closes over `options`.  The source performs no
validation of `options.ttl` or `options.size`; accordingly this constructor
is total and stores the options untouched. -/
def memoize_async (R : Type) (options : MemoOptions) : Memoizer R :=
  ⟨options, initState R⟩

/-- Result of the synchronous prefix of `memoized` (everything before the
`await f(...)` on line 72): argument-count rejection (lines 48-52), cache
hit (lines 57-60), joining an in-flight computation (lines 63-67), or
becoming the leader (line 69, which is followed by invoking `f`). -/
inductive CallStep (R : Type) where
  | invalidArity : Nat → Nat → CallStep R
  | hit : R → CallStep R
  | joined : CallStep R
  | lead : CallStep R
deriving DecidableEq, Repr

/-- Lines 63-69 of `memoized`: on a cache miss, either enqueue onto the
existing in-flight record or create an empty record and lead. -/
def callPhase1Miss {R : Type} (key : String) (wid : Nat) (st : MemoState R) :
    CallStep R × MemoState R :=
  match mapGet st.queue key with
  | some ws => (CallStep.joined, { st with queue := mapSet st.queue key (ws ++ [wid]) })
  | none => (CallStep.lead, { st with queue := mapSet st.queue key [] })

/-- Lines 48-69 of `memoized`: arity check, key derivation, cache lookup with
lazy expiry (`entry.expiry > new Date()`), then the in-flight dispatch.
`now` is the value of `new Date()` during this call; `wid` identifies the
caller's completion handle. -/
def callPhase1 {R : Type} (fArity : Nat) (args : List JSPrim) (now : Int) (wid : Nat)
    (st : MemoState R) : CallStep R × MemoState R :=
  if args.length ≠ fArity then (CallStep.invalidArity args.length fArity, st)
  else
    match mapGet st.cache (jsonStringify args) with
    | some e =>
      if e.expiry > now then (CallStep.hit e.value, st)
      else callPhase1Miss (jsonStringify args) wid st
    | none => callPhase1Miss (jsonStringify args) wid st

/-- Caller-visible effects of a leader's completion, in program order. -/
inductive MemoEvent (R : Type) where
  | evicted : String → MemoEvent R
  | stored : String → R → Int → MemoEvent R
  | queueDropped : String → MemoEvent R
  | resolved : Nat → R → MemoEvent R
  | rejected : Nat → String → MemoEvent R
deriving DecidableEq, Repr

/-- Lines 73-77 of `memoized`: `if (cache.size >= maxSize) { delete oldest }`.
Notably the source checks only the size, not whether the key about to be
stored is already present; when the cache is empty (possible when
`size <= 0`) `oldestKey` is `undefined` and the delete is a no-op. -/
def evictIfFull {R : Type} (cfg : MemoOptions) (cache : List (String × CacheEntry R)) :
    List (String × CacheEntry R) × List (MemoEvent R) :=
  if (cache.length : Int) ≥ cfg.size then
    match cache with
    | [] => (cache, [])
    | (k0, _) :: _ => (mapDelete cache k0, [MemoEvent.evicted k0])
  else (cache, [])

/-- Lines 72-91 of `memoized` (after `await f(...)` succeeded with `result`):
evict the oldest key if `cache.size >= maxSize`, store `{value, expiry}` with
`expiry = now + ttl`, then read and delete the queue record and resolve every
registered handler with `result`.  Returns the new state and the events in
the order the source performs them. -/
def settleSuccess {R : Type} (cfg : MemoOptions) (key : String) (result : R) (now : Int)
    (st : MemoState R) : MemoState R × List (MemoEvent R) :=
  let evictPair := evictIfFull cfg st.cache
  let expiry := now + cfg.ttl
  let handlers := (mapGet st.queue key).getD []
  (⟨mapSet evictPair.1 key ⟨result, expiry⟩, mapDelete st.queue key⟩,
    evictPair.2 ++ MemoEvent.stored key result expiry :: MemoEvent.queueDropped key
      :: handlers.map (fun w => MemoEvent.resolved w result))

/-- Lines 94-103 of `memoized` (the `catch` branch): the cache is untouched,
the queue record is read and deleted, and every registered handler is
rejected with the same caught error. -/
def settleFailure {R : Type} (key : String) (err : String) (st : MemoState R) :
    MemoState R × List (MemoEvent R) :=
  let handlers := (mapGet st.queue key).getD []
  (⟨st.cache, mapDelete st.queue key⟩,
    MemoEvent.queueDropped key :: handlers.map (fun w => MemoEvent.rejected w err))

/-- The whole settlement of a leader call (lines 71-104): on success the
leader itself resolves with `result` after the waiters (line 93); on failure
it rethrows the error after rejecting the waiters (line 103). -/
def leaderComplete {R : Type} (cfg : MemoOptions) (key : String) (leaderWid : Nat)
    (outcome : Except String R) (now : Int) (st : MemoState R) :
    MemoState R × List (MemoEvent R) :=
  match outcome with
  | Except.ok r =>
    let p := settleSuccess cfg key r now st
    (p.1, p.2 ++ [MemoEvent.resolved leaderWid r])
  | Except.error e =>
    let p := settleFailure key e st
    (p.1, p.2 ++ [MemoEvent.rejected leaderWid e])

/-- `cache_size()` (line 108): `cache.size`. -/
def cache_size {R : Type} (st : MemoState R) : Nat :=
  st.cache.length

/-- `clear_cache()` (line 109): `cache.clear()`; the queue is untouched. -/
def clear_cache {R : Type} (st : MemoState R) : MemoState R :=
  ⟨[], st.queue⟩

/-- An externally observable operation on one memoizer instance, for
reasoning about arbitrary interleaved histories: the synchronous prefix of a
call, a leader's successful or failed settlement, or `clear_cache()`. -/
inductive MemoOp (R : Type) where
  | call : Nat → List JSPrim → Int → Nat → MemoOp R
  | succeed : List JSPrim → R → Int → MemoOp R
  | failed : List JSPrim → String → MemoOp R
  | clearOp : MemoOp R
deriving DecidableEq, Repr

/-- State transition of one operation. -/
def stepOp {R : Type} (cfg : MemoOptions) (st : MemoState R) : MemoOp R → MemoState R
  | MemoOp.call fA args now wid => (callPhase1 fA args now wid st).2
  | MemoOp.succeed args r now => (settleSuccess cfg (jsonStringify args) r now st).1
  | MemoOp.failed args err => (settleFailure (jsonStringify args) err st).1
  | MemoOp.clearOp => clear_cache st

/-- Execute a history of operations from the freshly constructed state. -/
def exec {R : Type} (cfg : MemoOptions) (ops : List (MemoOp R)) : MemoState R :=
  ops.foldl (stepOp cfg) (initState R)

/-- No unexpired entry for `key` at time `now` (the cache-lookup miss
condition of lines 57-60, including the lazily kept expired entries). -/
def cacheMiss {R : Type} (cache : List (String × CacheEntry R)) (key : String)
    (now : Int) : Prop :=
  ∀ e, mapGet cache key = some e → e.expiry ≤ now

/-- The synchronous prefixes of a batch of calls with the same argument list,
in issue order; each pair is (call time, caller completion-handle id). -/
def runCalls {R : Type} (fA : Nat) (args : List JSPrim) :
    List (Int × Nat) → MemoState R → List (CallStep R) × MemoState R
  | [], st => ([], st)
  | (now, wid) :: rest, st =>
    let p := callPhase1 fA args now wid st
    let q := runCalls fA args rest p.2
    (p.1 :: q.1, q.2)

/-- Whether a call's synchronous prefix makes it the leader — i.e. the branch
that goes on to invoke the underlying `f` (line 72). -/
def isLead {R : Type} : CallStep R → Bool
  | CallStep.lead => true
  | _ => false

/-- The per-caller outcomes delivered by a batch of events: which completion
handle was fulfilled, and with which success value or error. -/
def deliveredOutcomes {R : Type} (evs : List (MemoEvent R)) :
    List (Nat × Except String R) :=
  evs.filterMap (fun e => match e with
    | MemoEvent.resolved w v => some (w, Except.ok v)
    | MemoEvent.rejected w er => some (w, Except.error er)
    | _ => none)

/-!
## Map lemmas (JS `Map` semantics on insertion-ordered association lists)
-/

theorem mapGet_mapSet_self {α : Type} (m : List (String × α)) (k : String) (v : α) :
    mapGet (mapSet m k v) k = some v := by
  induction m with
  | nil => simp [mapSet, mapGet]
  | cons p rest ih =>
    obtain ⟨k0, v0⟩ := p
    by_cases h : k0 = k
    · simp [mapSet, mapGet, h]
    · simp [mapSet, mapGet, h, ih]

theorem mapGet_mapSet_ne {α : Type} (m : List (String × α)) (k k2 : String) (v : α)
    (h : k2 ≠ k) : mapGet (mapSet m k v) k2 = mapGet m k2 := by
  induction m with
  | nil => simp [mapSet, mapGet, Ne.symm h]
  | cons p rest ih =>
    obtain ⟨k0, v0⟩ := p
    by_cases h0 : k0 = k
    · subst h0
      simp [mapSet, mapGet, Ne.symm h]
    · simp only [mapSet, if_neg h0, mapGet]
      by_cases h2 : k0 = k2 <;> simp [h2, ih]

theorem mapGet_mapDelete_ne {α : Type} (m : List (String × α)) (k k2 : String)
    (h : k2 ≠ k) : mapGet (mapDelete m k) k2 = mapGet m k2 := by
  induction m with
  | nil => simp [mapDelete]
  | cons p rest ih =>
    obtain ⟨k0, v0⟩ := p
    by_cases h0 : k0 = k
    · subst h0
      simp [mapDelete, mapGet, Ne.symm h]
    · simp only [mapDelete, if_neg h0, mapGet]
      by_cases h2 : k0 = k2 <;> simp [h2, ih]

theorem mapGet_eq_none_of_not_mem {α : Type} (m : List (String × α)) (k : String)
    (h : k ∉ m.map Prod.fst) : mapGet m k = none := by
  induction m with
  | nil => rfl
  | cons p rest ih =>
    obtain ⟨k0, v0⟩ := p
    simp only [List.map_cons, List.mem_cons, not_or] at h
    simp [mapGet, Ne.symm h.1, ih h.2]

theorem mapGet_mapDelete_self {α : Type} (m : List (String × α)) (k : String)
    (hnodup : (m.map Prod.fst).Nodup) : mapGet (mapDelete m k) k = none := by
  induction m with
  | nil => rfl
  | cons p rest ih =>
    obtain ⟨k0, v0⟩ := p
    simp only [List.map_cons, List.nodup_cons] at hnodup
    by_cases h0 : k0 = k
    · subst h0
      simp only [mapDelete, if_pos rfl]
      exact mapGet_eq_none_of_not_mem rest k0 hnodup.1
    · simp [mapDelete, mapGet, h0, ih hnodup.2]

theorem mapSet_length_le {α : Type} (m : List (String × α)) (k : String) (v : α) :
    (mapSet m k v).length ≤ m.length + 1 := by
  induction m with
  | nil => simp [mapSet]
  | cons p rest ih =>
    obtain ⟨k0, v0⟩ := p
    by_cases h : k0 = k
    · simp [mapSet, h]
    · simp [mapSet, h]
      omega

theorem mapSet_length_of_not_mem {α : Type} (m : List (String × α)) (k : String) (v : α)
    (h : mapGet m k = none) : (mapSet m k v).length = m.length + 1 := by
  induction m with
  | nil => simp [mapSet]
  | cons p rest ih =>
    obtain ⟨k0, v0⟩ := p
    by_cases h0 : k0 = k
    · simp [mapGet, h0] at h
    · simp only [mapGet, if_neg h0] at h
      simp [mapSet, h0, ih h]

theorem mapDelete_cons_self {α : Type} (k : String) (v : α) (rest : List (String × α)) :
    mapDelete ((k, v) :: rest) k = rest := by
  simp [mapDelete]

/-!
## Behaviour of the call prefix
-/

/-- The synchronous call prefix never modifies the cache (lines 48-69 only
read it). -/
theorem callPhase1_cache {R : Type} (fArity : Nat) (args : List JSPrim) (now : Int)
    (wid : Nat) (st : MemoState R) : (callPhase1 fArity args now wid st).2.cache = st.cache := by
  unfold callPhase1 callPhase1Miss
  by_cases h : args.length ≠ fArity
  · simp [h]
  · simp only [if_neg h]
    cases mapGet st.cache (jsonStringify args) with
    | none => cases mapGet st.queue (jsonStringify args) <;> simp
    | some e =>
      by_cases hx : e.expiry > now
      · simp [hx]
      · simp only [if_neg hx]
        cases mapGet st.queue (jsonStringify args) <;> simp

/-- A call that finds no unexpired entry and no in-flight record becomes the
leader: it creates the empty queue record (line 69) and goes on to invoke
`f`. -/
theorem callPhase1_lead {R : Type} (fArity : Nat) (args : List JSPrim) (now : Int)
    (wid : Nat) (st : MemoState R) (harity : args.length = fArity)
    (hmiss : cacheMiss st.cache (jsonStringify args) now)
    (hq : mapGet st.queue (jsonStringify args) = none) :
    callPhase1 fArity args now wid st
      = (CallStep.lead, ⟨st.cache, mapSet st.queue (jsonStringify args) []⟩) := by
  unfold callPhase1 callPhase1Miss
  rw [if_neg (show ¬args.length ≠ fArity by omega)]
  cases hget : mapGet st.cache (jsonStringify args) with
  | none => simp only [hq]
  | some e =>
    have hexp := hmiss e hget
    have hx : ¬e.expiry > now := by omega
    simp only [hq, if_neg hx]

/-- A call that finds no unexpired entry but an existing in-flight record
joins it: its completion handle is appended to the record (line 65). -/
theorem callPhase1_join {R : Type} (fArity : Nat) (args : List JSPrim) (now : Int)
    (wid : Nat) (st : MemoState R) (acc : List Nat) (harity : args.length = fArity)
    (hmiss : cacheMiss st.cache (jsonStringify args) now)
    (hq : mapGet st.queue (jsonStringify args) = some acc) :
    callPhase1 fArity args now wid st
      = (CallStep.joined, ⟨st.cache, mapSet st.queue (jsonStringify args) (acc ++ [wid])⟩) := by
  unfold callPhase1 callPhase1Miss
  rw [if_neg (show ¬args.length ≠ fArity by omega)]
  cases hget : mapGet st.cache (jsonStringify args) with
  | none => simp only [hq]
  | some e =>
    have hexp := hmiss e hget
    have hx : ¬e.expiry > now := by omega
    simp only [hq, if_neg hx]

/-!
## Claim theorems
-/

/-- C7: a call whose argument count differs from the wrapped operation's
declared arity fails immediately with the invalid-arity error carrying the
two counts (lines 48-52); the underlying operation is not invoked (the
result is the rejection, not `lead`), the state — cache and in-flight
records — is returned unchanged, and the outcome is the same whatever the
cache/in-flight state, so that state is neither read nor modified. -/
theorem c7_invalid_arity {R : Type} (fArity : Nat) (args : List JSPrim) (now : Int)
    (wid : Nat) (st : MemoState R) (h : args.length ≠ fArity) :
    callPhase1 fArity args now wid st = (CallStep.invalidArity args.length fArity, st) ∧
    (∀ st2 : MemoState R, (callPhase1 fArity args now wid st2).1
      = CallStep.invalidArity args.length fArity) := by
  constructor
  · unfold callPhase1
    rw [if_pos h]
  · intro st2
    unfold callPhase1
    rw [if_pos h]

theorem c7_invalid_arity_witness :
    ([JSPrim.num (JSNum.int 1)].length ≠ 2) ∧
    (callPhase1 2 [JSPrim.num (JSNum.int 1)] 0 0
        (⟨[("k", ⟨5, 9⟩)], [("q", [3])]⟩ : MemoState Nat)
      = (CallStep.invalidArity 1 2, ⟨[("k", ⟨5, 9⟩)], [("q", [3])]⟩) ∧
    (∀ st2 : MemoState Nat, (callPhase1 2 [JSPrim.num (JSNum.int 1)] 0 0 st2).1
      = CallStep.invalidArity 1 2)) :=
  ⟨by decide, c7_invalid_arity 2 [JSPrim.num (JSNum.int 1)] 0 0 _ (by decide)⟩

/-- C4 counterexample: construction with `ttl = -1` and `size = 0` — both
violating the claimed validation bounds — is not rejected.  `memoize_async`
(lines 37-43) performs no check: it returns a working memoizer whose first
call becomes the leader and invokes `f`, and whose successful settlement
stores a cache entry (so `cache_size()` even exceeds the configured
`size = 0`). -/
theorem c4_counterexample :
    memoize_async Nat ⟨-1, 0⟩ = ⟨⟨-1, 0⟩, ⟨[], []⟩⟩ ∧
    (callPhase1 1 [JSPrim.num (JSNum.int 7)] 0 0 (memoize_async Nat ⟨-1, 0⟩).state).1
      = CallStep.lead ∧
    cache_size ((settleSuccess ⟨-1, 0⟩ (jsonStringify [JSPrim.num (JSNum.int 7)]) 14 0
      ((callPhase1 1 [JSPrim.num (JSNum.int 7)] 0 0 (memoize_async Nat ⟨-1, 0⟩).state).2)).1)
      = 1 :=
  ⟨rfl, rfl, rfl⟩

/-- C4 (amended): `memoize_async` does not validate its options at all:
construction with any `ttl` and `size` whatsoever (negative, zero, …)
succeeds, stores the options untouched over fresh empty state, and the first
arity-correct call proceeds normally to lead and invoke `f`. -/
theorem c4_no_validation (R : Type) (options : MemoOptions) (fArity : Nat)
    (args : List JSPrim) (now : Int) (wid : Nat) (h : args.length = fArity) :
    memoize_async R options = ⟨options, ⟨[], []⟩⟩ ∧
    (callPhase1 fArity args now wid (memoize_async R options).state).1 = CallStep.lead := by
  refine ⟨rfl, ?_⟩
  show (callPhase1 fArity args now wid (⟨[], []⟩ : MemoState R)).1 = CallStep.lead
  rw [callPhase1_lead fArity args now wid (⟨[], []⟩ : MemoState R) h
    (fun e he => Option.noConfusion he) rfl]

theorem c4_no_validation_witness :
    ([JSPrim.num (JSNum.int 7)].length = 1) ∧
    (memoize_async Nat ⟨-1, 0⟩ = ⟨⟨-1, 0⟩, ⟨[], []⟩⟩ ∧
     (callPhase1 1 [JSPrim.num (JSNum.int 7)] 0 0 (memoize_async Nat ⟨-1, 0⟩).state).1
       = CallStep.lead) :=
  ⟨rfl, c4_no_validation Nat ⟨-1, 0⟩ 1 [JSPrim.num (JSNum.int 7)] 0 0 rfl⟩

/-- C3 counterexample: the key derivation is not injective on the admitted
argument domain.  `NaN` is a JS number, yet `JSON.stringify([NaN])` is
`"[null]"`, identical to `JSON.stringify([undefined])` — two argument lists
that differ in type map to the same key. -/
theorem c3_counterexample :
    jsonStringify [JSPrim.num JSNum.nan] = jsonStringify [JSPrim.undef] ∧
    [JSPrim.num JSNum.nan] ≠ [JSPrim.undef] :=
  ⟨rfl, by decide⟩

/-- C3 (amended): excluding the non-finite numbers (`NaN`, `±Infinity`,
which `JSON.stringify` serializes as `null`, colliding with `undefined` and
each other), the key derivation is injective: two argument sequences of
strings, finite numbers, booleans and the missing marker get equal keys iff
they are equal element-wise and type-wise.  In particular the number `1` and
the string `"1"` map to different keys. -/
theorem c3_key_injective_on_finite (l1 l2 : List JSPrim)
    (h1 : ∀ p ∈ l1, finitePrim p = true) (h2 : ∀ p ∈ l2, finitePrim p = true) :
    jsonStringify l1 = jsonStringify l2 ↔ l1 = l2 :=
  ⟨jsonStringify_injOn l1 l2 h1 h2, fun h => by rw [h]⟩

theorem c3_key_injective_on_finite_witness :
    (∀ p ∈ [JSPrim.num (JSNum.int 1)], finitePrim p = true) ∧
    (∀ p ∈ [JSPrim.str "1"], finitePrim p = true) ∧
    ((jsonStringify [JSPrim.num (JSNum.int 1)] = jsonStringify [JSPrim.str "1"])
      ↔ [JSPrim.num (JSNum.int 1)] = [JSPrim.str "1"]) :=
  ⟨by decide, by decide, c3_key_injective_on_finite _ _ (by decide) (by decide)⟩

/-- The interleaved history for the C2 counterexample: store `[1]`, store
`[2]` (filling a size-2 cache), then — after both entries have expired — a
new leader call for `[2]`. -/
def c2Args1 : List JSPrim := [JSPrim.num (JSNum.int 1)]

def c2Args2 : List JSPrim := [JSPrim.num (JSNum.int 2)]

def c2History : List (MemoOp Nat) :=
  [MemoOp.call 1 c2Args1 0 100, MemoOp.succeed c2Args1 11 0,
   MemoOp.call 1 c2Args2 1 101, MemoOp.succeed c2Args2 22 1,
   MemoOp.call 1 c2Args2 200 102]

/-- C2 counterexample: with `ttl = 10`, `size = 2`, after the history above
the cache is at capacity and still holds both (expired) entries, so the
store for key `[2]` is an update to an entry already present; yet the
settlement evicts the other entry `[1]` (lines 74-77 check only
`cache.size >= maxSize`, never whether the key is an update). -/
theorem c2_counterexample :
    (mapGet (exec ⟨10, 2⟩ c2History).cache (jsonStringify c2Args2)).isSome = true ∧
    ((exec ⟨10, 2⟩ c2History).cache.length : Int) ≥ (2 : Int) ∧
    mapGet (exec ⟨10, 2⟩ c2History).cache (jsonStringify c2Args1) ≠ none ∧
    mapGet ((settleSuccess ⟨10, 2⟩ (jsonStringify c2Args2) 33 200
        (exec ⟨10, 2⟩ c2History)).1).cache (jsonStringify c2Args1) = none :=
  ⟨rfl, by decide, by decide, rfl⟩

/-- C2 (amended): when a successful leader stores a result under key `k` and
the cache holds at least `size` entries, the oldest-inserted entry is
evicted unconditionally — the source never checks whether `k` is an update
to an entry already present.  In particular, if `k` is already present (its
prior entry merely expired) but is not the oldest, the oldest other entry is
still evicted, and the new value is stored under `k`. -/
theorem c2_eviction_on_update {R : Type} (cfg : MemoOptions) (st : MemoState R)
    (key : String) (r : R) (now : Int) (k0 : String) (e0 : CacheEntry R)
    (rest : List (String × CacheEntry R))
    (hcache : st.cache = (k0, e0) :: rest)
    (hcap : (st.cache.length : Int) ≥ cfg.size)
    (hk0 : k0 ≠ key) (hwf : mapGet rest k0 = none) :
    mapGet ((settleSuccess cfg key r now st).1).cache k0 = none ∧
    mapGet ((settleSuccess cfg key r now st).1).cache key = some ⟨r, now + cfg.ttl⟩ := by
  have hcap2 : (((k0, e0) :: rest).length : Int) ≥ cfg.size := by
    rw [← hcache]
    exact hcap
  have hev : evictIfFull cfg st.cache = (rest, [MemoEvent.evicted k0]) := by
    unfold evictIfFull
    rw [hcache, if_pos hcap2]
    simp [mapDelete_cons_self]
  have hc : ((settleSuccess cfg key r now st).1).cache
      = mapSet (evictIfFull cfg st.cache).1 key ⟨r, now + cfg.ttl⟩ := rfl
  rw [hc, hev]
  exact ⟨by rw [mapGet_mapSet_ne _ _ _ _ hk0, hwf], mapGet_mapSet_self _ _ _⟩

theorem c2_eviction_on_update_witness :
    ((⟨[("a", ⟨0, 0⟩), ("b", ⟨1, 1⟩)], []⟩ : MemoState Nat).cache
      = ("a", (⟨0, 0⟩ : CacheEntry Nat)) :: [("b", ⟨1, 1⟩)]) ∧
    (((⟨[("a", ⟨0, 0⟩), ("b", ⟨1, 1⟩)], []⟩ : MemoState Nat).cache.length : Int)
      ≥ (⟨10, 2⟩ : MemoOptions).size) ∧
    ("a" ≠ "b") ∧
    (mapGet [("b", (⟨1, 1⟩ : CacheEntry Nat))] "a" = none) ∧
    (mapGet ((settleSuccess ⟨10, 2⟩ "b" 5 100
        (⟨[("a", ⟨0, 0⟩), ("b", ⟨1, 1⟩)], []⟩ : MemoState Nat)).1).cache "a" = none ∧
     mapGet ((settleSuccess ⟨10, 2⟩ "b" 5 100
        (⟨[("a", ⟨0, 0⟩), ("b", ⟨1, 1⟩)], []⟩ : MemoState Nat)).1).cache "b"
       = some ⟨5, 100 + (⟨10, 2⟩ : MemoOptions).ttl⟩) :=
  ⟨rfl, by decide, by decide, rfl,
    c2_eviction_on_update ⟨10, 2⟩ ⟨[("a", ⟨0, 0⟩), ("b", ⟨1, 1⟩)], []⟩ "b" 5 100 "a" ⟨0, 0⟩
      [("b", ⟨1, 1⟩)] rfl (by decide) (by decide) rfl⟩
/-- C8: a cache lookup never serves an expired value.  With the expiry
stored as `store time + ttl`: (i) an entry is served exactly while
`now < expiry` (the source's `entry.expiry > new Date()`); (ii) at or past
expiry the entry counts as absent and, with no in-flight record, the call
leads and invokes `f` afresh; (iii) a successful settlement at `t0` stores
expiry `t0 + ttl`; (iv) hence a call at `now2 ≥ t0 + ttl` after that store
leads again. -/
theorem c8_expiry {R : Type} (cfg : MemoOptions) (st : MemoState R) (args : List JSPrim)
    (fArity : Nat) (wid : Nat) (harity : args.length = fArity) :
    (∀ (now : Int) (e : CacheEntry R), mapGet st.cache (jsonStringify args) = some e →
      now < e.expiry → callPhase1 fArity args now wid st = (CallStep.hit e.value, st)) ∧
    (∀ (now : Int) (e : CacheEntry R), mapGet st.cache (jsonStringify args) = some e →
      e.expiry ≤ now → mapGet st.queue (jsonStringify args) = none →
      (callPhase1 fArity args now wid st).1 = CallStep.lead) ∧
    (∀ (r : R) (t0 : Int),
      mapGet ((settleSuccess cfg (jsonStringify args) r t0 st).1).cache (jsonStringify args)
        = some ⟨r, t0 + cfg.ttl⟩) ∧
    (∀ (r : R) (t0 now2 : Int) (wid2 : Nat), t0 + cfg.ttl ≤ now2 →
      mapGet ((settleSuccess cfg (jsonStringify args) r t0 st).1).queue (jsonStringify args)
        = none →
      (callPhase1 fArity args now2 wid2 ((settleSuccess cfg (jsonStringify args) r t0 st).1)).1
        = CallStep.lead) := by
  refine ⟨?_, ?_, ?_, ?_⟩
  · intro now e hget hlt
    unfold callPhase1
    rw [if_neg (show ¬args.length ≠ fArity by omega)]
    simp only [hget]
    rw [if_pos (show e.expiry > now from hlt)]
  · intro now e hget hle hqn
    rw [callPhase1_lead fArity args now wid st harity
      (fun e2 he2 => by rw [hget] at he2; injection he2 with h2; rw [← h2]; exact hle) hqn]
  · intro r t0
    exact mapGet_mapSet_self _ _ _
  · intro r t0 now2 wid2 hle hq2
    have h3 : mapGet ((settleSuccess cfg (jsonStringify args) r t0 st).1).cache
        (jsonStringify args) = some ⟨r, t0 + cfg.ttl⟩ := mapGet_mapSet_self _ _ _
    rw [callPhase1_lead fArity args now2 wid2 _ harity
      (fun e2 he2 => by rw [h3] at he2; injection he2 with h2; rw [← h2]; exact hle) hq2]

theorem c8_expiry_witness :
    ([JSPrim.num (JSNum.int 3)].length = 1) ∧
    ((∀ (now : Int) (e : CacheEntry Nat),
        mapGet (⟨[(jsonStringify [JSPrim.num (JSNum.int 3)], ⟨6, 40⟩)], []⟩ :
          MemoState Nat).cache (jsonStringify [JSPrim.num (JSNum.int 3)]) = some e →
        now < e.expiry →
        callPhase1 1 [JSPrim.num (JSNum.int 3)] now 5
          (⟨[(jsonStringify [JSPrim.num (JSNum.int 3)], ⟨6, 40⟩)], []⟩ : MemoState Nat)
          = (CallStep.hit e.value,
            ⟨[(jsonStringify [JSPrim.num (JSNum.int 3)], ⟨6, 40⟩)], []⟩)) ∧
     (∀ (now : Int) (e : CacheEntry Nat),
        mapGet (⟨[(jsonStringify [JSPrim.num (JSNum.int 3)], ⟨6, 40⟩)], []⟩ :
          MemoState Nat).cache (jsonStringify [JSPrim.num (JSNum.int 3)]) = some e →
        e.expiry ≤ now →
        mapGet (⟨[(jsonStringify [JSPrim.num (JSNum.int 3)], ⟨6, 40⟩)], []⟩ :
          MemoState Nat).queue (jsonStringify [JSPrim.num (JSNum.int 3)]) = none →
        (callPhase1 1 [JSPrim.num (JSNum.int 3)] now 5
          (⟨[(jsonStringify [JSPrim.num (JSNum.int 3)], ⟨6, 40⟩)], []⟩ : MemoState Nat)).1
          = CallStep.lead) ∧
     (∀ (r : Nat) (t0 : Int),
        mapGet ((settleSuccess ⟨30, 4⟩ (jsonStringify [JSPrim.num (JSNum.int 3)]) r t0
          (⟨[(jsonStringify [JSPrim.num (JSNum.int 3)], ⟨6, 40⟩)], []⟩ : MemoState Nat)).1).cache
          (jsonStringify [JSPrim.num (JSNum.int 3)])
          = some ⟨r, t0 + (⟨30, 4⟩ : MemoOptions).ttl⟩) ∧
     (∀ (r : Nat) (t0 now2 : Int) (wid2 : Nat), t0 + (⟨30, 4⟩ : MemoOptions).ttl ≤ now2 →
        mapGet ((settleSuccess ⟨30, 4⟩ (jsonStringify [JSPrim.num (JSNum.int 3)]) r t0
          (⟨[(jsonStringify [JSPrim.num (JSNum.int 3)], ⟨6, 40⟩)], []⟩ : MemoState Nat)).1).queue
          (jsonStringify [JSPrim.num (JSNum.int 3)]) = none →
        (callPhase1 1 [JSPrim.num (JSNum.int 3)] now2 wid2
          ((settleSuccess ⟨30, 4⟩ (jsonStringify [JSPrim.num (JSNum.int 3)]) r t0
            (⟨[(jsonStringify [JSPrim.num (JSNum.int 3)], ⟨6, 40⟩)], []⟩ : MemoState Nat)).1)).1
          = CallStep.lead)) :=
  ⟨rfl, c8_expiry ⟨30, 4⟩ ⟨[(jsonStringify [JSPrim.num (JSNum.int 3)], ⟨6, 40⟩)], []⟩
    [JSPrim.num (JSNum.int 3)] 1 5 rfl⟩

/-- C9: `clear_cache()` empties the result cache (`cache_size()` is 0
immediately afterwards) and leaves the in-flight queue untouched; a leader
settling after the clear still delivers its outcome — success value or
error — to every waiter registered for its key and then to itself, exactly
as without the clear. -/
theorem c9_clear_cache {R : Type} (cfg : MemoOptions) (st : MemoState R) (key : String)
    (r : R) (err : String) (now : Int) (wid : Nat) (ws : List Nat)
    (hq : mapGet st.queue key = some ws) :
    cache_size (clear_cache st) = 0 ∧
    (clear_cache st).queue = st.queue ∧
    (leaderComplete cfg key wid (Except.ok r) now (clear_cache st)).2
      = MemoEvent.stored key r (now + cfg.ttl) :: MemoEvent.queueDropped key
        :: (ws.map (fun w => MemoEvent.resolved w r) ++ [MemoEvent.resolved wid r]) ∧
    (leaderComplete cfg key wid (Except.error err) now (clear_cache st)).2
      = MemoEvent.queueDropped key
        :: (ws.map (fun w => MemoEvent.rejected w err) ++ [MemoEvent.rejected wid err]) := by
  refine ⟨rfl, rfl, ?_, ?_⟩
  · have hev : evictIfFull (R := R) cfg [] = ([], []) := by
      unfold evictIfFull
      split
      · rfl
      · rfl
    have hlc : (leaderComplete cfg key wid (Except.ok r) now (clear_cache st)).2
        = ((evictIfFull cfg ([] : List (String × CacheEntry R))).2
            ++ MemoEvent.stored key r (now + cfg.ttl) :: MemoEvent.queueDropped key
            :: ((mapGet st.queue key).getD []).map (fun w => MemoEvent.resolved w r))
          ++ [MemoEvent.resolved wid r] := rfl
    rw [hlc, hev, hq]
    simp
  · have hlc : (leaderComplete cfg key wid (Except.error err) now (clear_cache st)).2
        = (MemoEvent.queueDropped key
            :: ((mapGet st.queue key).getD []).map (fun w => MemoEvent.rejected w err))
          ++ [MemoEvent.rejected wid err] := rfl
    rw [hlc, hq]
    simp

theorem c9_clear_cache_witness :
    (mapGet ((⟨[("c", ⟨3, 4⟩)], [("k", [1, 2]), ("z", [9])]⟩ :
        MemoState Nat).queue) "k" = some [1, 2]) ∧
    (cache_size (clear_cache (⟨[("c", ⟨3, 4⟩)], [("k", [1, 2]), ("z", [9])]⟩ :
        MemoState Nat)) = 0 ∧
     (clear_cache (⟨[("c", ⟨3, 4⟩)], [("k", [1, 2]), ("z", [9])]⟩ : MemoState Nat)).queue
       = (⟨[("c", ⟨3, 4⟩)], [("k", [1, 2]), ("z", [9])]⟩ : MemoState Nat).queue ∧
     (leaderComplete ⟨10, 1⟩ "k" 99 (Except.ok 7) 50
        (clear_cache (⟨[("c", ⟨3, 4⟩)], [("k", [1, 2]), ("z", [9])]⟩ : MemoState Nat))).2
       = MemoEvent.stored "k" 7 (50 + (⟨10, 1⟩ : MemoOptions).ttl) :: MemoEvent.queueDropped "k"
         :: ([1, 2].map (fun w => MemoEvent.resolved w 7) ++ [MemoEvent.resolved 99 7]) ∧
     (leaderComplete ⟨10, 1⟩ "k" 99 (Except.error "boom") 50
        (clear_cache (⟨[("c", ⟨3, 4⟩)], [("k", [1, 2]), ("z", [9])]⟩ : MemoState Nat))).2
       = MemoEvent.queueDropped "k"
         :: ([1, 2].map (fun w => MemoEvent.rejected w "boom")
            ++ [MemoEvent.rejected 99 "boom"])) :=
  ⟨by decide, c9_clear_cache ⟨10, 1⟩ ⟨[("c", ⟨3, 4⟩)], [("k", [1, 2]), ("z", [9])]⟩
    "k" 7 "boom" 50 99 [1, 2] (by decide)⟩

/-- C10: on a successful settlement for key k the events are exactly
(optional eviction) ++ [store of k, queue-record removal] ++ the waiter
resolutions — so the cache store and the in-flight record deletion precede
every waiter's resolution; and in the post-state the result is in the cache
under k while no in-flight record for k remains. -/
theorem c10_store_before_resolve {R : Type} (cfg : MemoOptions) (key : String) (r : R)
    (now : Int) (st : MemoState R) (ws : List Nat)
    (hq : mapGet st.queue key = some ws)
    (hnodup : (st.queue.map Prod.fst).Nodup) :
    (settleSuccess cfg key r now st).2
      = (evictIfFull cfg st.cache).2 ++ MemoEvent.stored key r (now + cfg.ttl)
        :: MemoEvent.queueDropped key :: ws.map (fun w => MemoEvent.resolved w r) ∧
    (∀ ev ∈ (evictIfFull cfg st.cache).2, ∃ k2, ev = MemoEvent.evicted k2) ∧
    mapGet ((settleSuccess cfg key r now st).1).cache key = some ⟨r, now + cfg.ttl⟩ ∧
    mapGet ((settleSuccess cfg key r now st).1).queue key = none := by
  refine ⟨?_, ?_, mapGet_mapSet_self _ _ _, mapGet_mapDelete_self _ _ hnodup⟩
  · have h2 : (settleSuccess cfg key r now st).2
        = (evictIfFull cfg st.cache).2 ++ MemoEvent.stored key r (now + cfg.ttl)
          :: MemoEvent.queueDropped key
          :: ((mapGet st.queue key).getD []).map (fun w => MemoEvent.resolved w r) := rfl
    rw [h2, hq]
    rfl
  · intro ev hev
    unfold evictIfFull at hev
    by_cases hcap : (st.cache.length : Int) ≥ cfg.size
    · rw [if_pos hcap] at hev
      cases hc : st.cache with
      | nil =>
        rw [hc] at hev
        simp at hev
      | cons p rest =>
        obtain ⟨k0, v0⟩ := p
        rw [hc] at hev
        simp at hev
        exact ⟨k0, hev⟩
    · rw [if_neg hcap] at hev
      simp at hev

theorem c10_store_before_resolve_witness :
    (mapGet ((⟨[("old", ⟨1, 2⟩)], [("k", [4, 5])]⟩ : MemoState Nat).queue) "k"
      = some [4, 5]) ∧
    (((⟨[("old", ⟨1, 2⟩)], [("k", [4, 5])]⟩ : MemoState Nat).queue.map Prod.fst).Nodup) ∧
    ((settleSuccess ⟨10, 1⟩ "k" 8 100
        (⟨[("old", ⟨1, 2⟩)], [("k", [4, 5])]⟩ : MemoState Nat)).2
      = (evictIfFull ⟨10, 1⟩ (⟨[("old", ⟨1, 2⟩)], [("k", [4, 5])]⟩ : MemoState Nat).cache).2
        ++ MemoEvent.stored "k" 8 (100 + (⟨10, 1⟩ : MemoOptions).ttl)
        :: MemoEvent.queueDropped "k" :: [4, 5].map (fun w => MemoEvent.resolved w 8) ∧
     (∀ ev ∈ (evictIfFull ⟨10, 1⟩
        (⟨[("old", ⟨1, 2⟩)], [("k", [4, 5])]⟩ : MemoState Nat).cache).2,
        ∃ k2, ev = MemoEvent.evicted k2) ∧
     mapGet ((settleSuccess ⟨10, 1⟩ "k" 8 100
        (⟨[("old", ⟨1, 2⟩)], [("k", [4, 5])]⟩ : MemoState Nat)).1).cache "k"
       = some ⟨8, 100 + (⟨10, 1⟩ : MemoOptions).ttl⟩ ∧
     mapGet ((settleSuccess ⟨10, 1⟩ "k" 8 100
        (⟨[("old", ⟨1, 2⟩)], [("k", [4, 5])]⟩ : MemoState Nat)).1).queue "k" = none) :=
  ⟨by decide, by decide, c10_store_before_resolve ⟨10, 1⟩ "k" 8 100
    ⟨[("old", ⟨1, 2⟩)], [("k", [4, 5])]⟩ [4, 5] (by decide) (by decide)⟩

/-- C6: when the leader's underlying call for key k fails, the cache is
exactly as before (no entry is stored for k or any key), the in-flight
record for k is removed, every registered waiter is rejected with the same
error, and the next call for k after settlement (still a cache miss)
becomes a fresh leader that invokes `f` again. -/
theorem c6_failure_not_cached {R : Type} (st : MemoState R) (args : List JSPrim)
    (fArity : Nat) (err : String) (ws : List Nat) (now2 : Int) (wid2 : Nat)
    (harity : args.length = fArity)
    (hq : mapGet st.queue (jsonStringify args) = some ws)
    (hnodup : (st.queue.map Prod.fst).Nodup)
    (hmiss : cacheMiss st.cache (jsonStringify args) now2) :
    ((settleFailure (jsonStringify args) err st).1).cache = st.cache ∧
    mapGet ((settleFailure (jsonStringify args) err st).1).queue (jsonStringify args)
      = none ∧
    (settleFailure (jsonStringify args) err st).2
      = MemoEvent.queueDropped (jsonStringify args)
        :: ws.map (fun w => MemoEvent.rejected w err) ∧
    (callPhase1 fArity args now2 wid2 ((settleFailure (jsonStringify args) err st).1)).1
      = CallStep.lead := by
  refine ⟨rfl, mapGet_mapDelete_self _ _ hnodup, ?_, ?_⟩
  · have h2 : (settleFailure (jsonStringify args) err st).2
        = MemoEvent.queueDropped (jsonStringify args)
          :: ((mapGet st.queue (jsonStringify args)).getD []).map
            (fun w => MemoEvent.rejected w err) := rfl
    rw [h2, hq]
    rfl
  · rw [callPhase1_lead fArity args now2 wid2
      ((settleFailure (jsonStringify args) err st).1) harity hmiss
      (mapGet_mapDelete_self _ _ hnodup)]

theorem c6_failure_not_cached_witness :
    ([JSPrim.num (JSNum.int 3)].length = 1) ∧
    (mapGet ((⟨[(jsonStringify [JSPrim.num (JSNum.int 3)], ⟨1, 5⟩)],
        [(jsonStringify [JSPrim.num (JSNum.int 3)], [4])]⟩ : MemoState Nat).queue)
      (jsonStringify [JSPrim.num (JSNum.int 3)]) = some [4]) ∧
    (((⟨[(jsonStringify [JSPrim.num (JSNum.int 3)], ⟨1, 5⟩)],
        [(jsonStringify [JSPrim.num (JSNum.int 3)], [4])]⟩ :
        MemoState Nat).queue.map Prod.fst).Nodup) ∧
    cacheMiss (⟨[(jsonStringify [JSPrim.num (JSNum.int 3)], ⟨1, 5⟩)],
        [(jsonStringify [JSPrim.num (JSNum.int 3)], [4])]⟩ : MemoState Nat).cache
      (jsonStringify [JSPrim.num (JSNum.int 3)]) 9 ∧
    (((settleFailure (jsonStringify [JSPrim.num (JSNum.int 3)]) "boom"
        (⟨[(jsonStringify [JSPrim.num (JSNum.int 3)], ⟨1, 5⟩)],
          [(jsonStringify [JSPrim.num (JSNum.int 3)], [4])]⟩ : MemoState Nat)).1).cache
      = (⟨[(jsonStringify [JSPrim.num (JSNum.int 3)], ⟨1, 5⟩)],
          [(jsonStringify [JSPrim.num (JSNum.int 3)], [4])]⟩ : MemoState Nat).cache ∧
     mapGet ((settleFailure (jsonStringify [JSPrim.num (JSNum.int 3)]) "boom"
        (⟨[(jsonStringify [JSPrim.num (JSNum.int 3)], ⟨1, 5⟩)],
          [(jsonStringify [JSPrim.num (JSNum.int 3)], [4])]⟩ : MemoState Nat)).1).queue
      (jsonStringify [JSPrim.num (JSNum.int 3)]) = none ∧
     (settleFailure (jsonStringify [JSPrim.num (JSNum.int 3)]) "boom"
        (⟨[(jsonStringify [JSPrim.num (JSNum.int 3)], ⟨1, 5⟩)],
          [(jsonStringify [JSPrim.num (JSNum.int 3)], [4])]⟩ : MemoState Nat)).2
      = MemoEvent.queueDropped (jsonStringify [JSPrim.num (JSNum.int 3)])
        :: [4].map (fun w => MemoEvent.rejected w "boom") ∧
     (callPhase1 1 [JSPrim.num (JSNum.int 3)] 9 77
        ((settleFailure (jsonStringify [JSPrim.num (JSNum.int 3)]) "boom"
          (⟨[(jsonStringify [JSPrim.num (JSNum.int 3)], ⟨1, 5⟩)],
            [(jsonStringify [JSPrim.num (JSNum.int 3)], [4])]⟩ : MemoState Nat)).1)).1
       = CallStep.lead) :=
  ⟨rfl, by decide, by decide,
    (fun e he => by injection he with h2; rw [← h2]; decide),
    c6_failure_not_cached
      ⟨[(jsonStringify [JSPrim.num (JSNum.int 3)], ⟨1, 5⟩)],
        [(jsonStringify [JSPrim.num (JSNum.int 3)], [4])]⟩
      [JSPrim.num (JSNum.int 3)] 1 "boom" [4] 9 77 rfl (by decide) (by decide)
      (fun e he => by injection he with h2; rw [← h2]; decide)⟩


theorem evictIfFull_cons {R : Type} (cfg : MemoOptions) (k0 : String) (e0 : CacheEntry R)
    (rest : List (String × CacheEntry R))
    (hcap : ((((k0, e0) :: rest).length : Int)) ≥ cfg.size) :
    evictIfFull cfg ((k0, e0) :: rest) = (rest, [MemoEvent.evicted k0]) := by
  unfold evictIfFull
  rw [if_pos hcap]
  simp [mapDelete_cons_self]

theorem evictIfFull_not_cap {R : Type} (cfg : MemoOptions)
    (c : List (String × CacheEntry R)) (h : ¬((c.length : Int) ≥ cfg.size)) :
    evictIfFull cfg c = (c, []) := by
  unfold evictIfFull
  rw [if_neg h]

/-- C5: for a memoizer with `size ≥ 1`, after every history of operations
`cache_size()` never exceeds `size`; storing a new distinct key while the
cache is at capacity removes exactly one entry — the earliest-inserted
still-present one (the list head), leaving every other key's entry intact —
and reads never modify (in particular never reorder) the cache, so eviction
is FIFO by insertion, independent of access recency. -/
theorem c5_capacity_fifo (R : Type) (cfg : MemoOptions) (hsize : 1 ≤ cfg.size) :
    (∀ ops : List (MemoOp R), (cache_size (exec cfg ops) : Int) ≤ cfg.size) ∧
    (∀ (st : MemoState R) (key : String) (r : R) (now : Int) (k0 : String)
        (e0 : CacheEntry R) (rest : List (String × CacheEntry R)),
      st.cache = (k0, e0) :: rest → (st.cache.length : Int) ≥ cfg.size →
      mapGet st.cache key = none → mapGet rest k0 = none →
      ((settleSuccess cfg key r now st).1).cache.length = st.cache.length ∧
      mapGet ((settleSuccess cfg key r now st).1).cache k0 = none ∧
      mapGet ((settleSuccess cfg key r now st).1).cache key = some ⟨r, now + cfg.ttl⟩ ∧
      (∀ k2, k2 ≠ k0 → k2 ≠ key →
        mapGet ((settleSuccess cfg key r now st).1).cache k2 = mapGet st.cache k2)) ∧
    (∀ (fArity : Nat) (args : List JSPrim) (now : Int) (wid : Nat) (st : MemoState R),
      (callPhase1 fArity args now wid st).2.cache = st.cache) := by
  refine ⟨?_, ?_, fun fA args now wid st => callPhase1_cache fA args now wid st⟩
  · have hstep : ∀ (st : MemoState R) (op : MemoOp R),
        (st.cache.length : Int) ≤ cfg.size →
        ((stepOp cfg st op).cache.length : Int) ≤ cfg.size := by
      intro st op h
      cases op with
      | call fA args now wid =>
        show (((callPhase1 fA args now wid st).2).cache.length : Int) ≤ cfg.size
        rw [callPhase1_cache]
        exact h
      | succeed args r now =>
        show ((mapSet (evictIfFull cfg st.cache).1 (jsonStringify args)
          ⟨r, now + cfg.ttl⟩).length : Int) ≤ cfg.size
        by_cases hcap : (st.cache.length : Int) ≥ cfg.size
        · cases hcache : st.cache with
          | nil =>
            exfalso
            rw [hcache] at hcap
            simp at hcap
            omega
          | cons p rest =>
            obtain ⟨k0, v0⟩ := p
            have hcap2 : (((k0, v0) :: rest).length : Int) ≥ cfg.size := hcache ▸ hcap
            rw [evictIfFull_cons cfg k0 v0 rest hcap2]
            show ((mapSet rest (jsonStringify args)
              (⟨r, now + cfg.ttl⟩ : CacheEntry R)).length : Int) ≤ cfg.size
            have h1 := mapSet_length_le rest (jsonStringify args)
              (⟨r, now + cfg.ttl⟩ : CacheEntry R)
            have h2 : st.cache.length = rest.length + 1 := by
              rw [hcache]
              rfl
            rw [h2] at h
            omega
        · rw [evictIfFull_not_cap cfg st.cache hcap]
          show ((mapSet st.cache (jsonStringify args)
            (⟨r, now + cfg.ttl⟩ : CacheEntry R)).length : Int) ≤ cfg.size
          have h1 := mapSet_length_le st.cache (jsonStringify args)
            (⟨r, now + cfg.ttl⟩ : CacheEntry R)
          omega
      | failed args err => exact h
      | clearOp =>
        show ((([] : List (String × CacheEntry R)).length : Int)) ≤ cfg.size
        simp
        omega
    have hexec : ∀ (ops : List (MemoOp R)) (st : MemoState R),
        (st.cache.length : Int) ≤ cfg.size →
        ((ops.foldl (stepOp cfg) st).cache.length : Int) ≤ cfg.size := by
      intro ops
      induction ops with
      | nil => intro st h; exact h
      | cons op rest ih =>
        intro st h
        exact ih _ (hstep st op h)
    intro ops
    show ((exec cfg ops).cache.length : Int) ≤ cfg.size
    refine hexec ops (initState R) ?_
    show ((([] : List (String × CacheEntry R)).length : Int)) ≤ cfg.size
    simp
    omega
  · intro st key r now k0 e0 rest hcache hcap hnew hwf
    have hk0 : k0 ≠ key := by
      intro hh
      rw [hcache] at hnew
      simp [mapGet, hh] at hnew
    have hrest : mapGet rest key = none := by
      rw [hcache] at hnew
      simp only [mapGet, if_neg hk0] at hnew
      exact hnew
    have hc : ((settleSuccess cfg key r now st).1).cache
        = mapSet (evictIfFull cfg st.cache).1 key ⟨r, now + cfg.ttl⟩ := rfl
    have hev := evictIfFull_cons cfg k0 e0 rest (by rw [← hcache]; exact hcap)
    refine ⟨?_, ?_, ?_, ?_⟩
    · rw [hc, hcache, hev]
      show (mapSet rest key (⟨r, now + cfg.ttl⟩ : CacheEntry R)).length
        = ((k0, e0) :: rest).length
      rw [mapSet_length_of_not_mem rest key _ hrest]
      simp
    · rw [hc, hcache, hev]
      show mapGet (mapSet rest key (⟨r, now + cfg.ttl⟩ : CacheEntry R)) k0 = none
      rw [mapGet_mapSet_ne _ _ _ _ hk0]
      exact hwf
    · rw [hc, hcache, hev]
      exact mapGet_mapSet_self _ _ _
    · intro k2 hk2a hk2b
      rw [hc, hcache, hev]
      show mapGet (mapSet rest key (⟨r, now + cfg.ttl⟩ : CacheEntry R)) k2
        = mapGet ((k0, e0) :: rest) k2
      rw [mapGet_mapSet_ne _ _ _ _ hk2b]
      simp [mapGet, Ne.symm hk2a]

theorem c5_capacity_fifo_witness :
    ((1 : Int) ≤ (⟨40, 2⟩ : MemoOptions).size) ∧
    ((∀ ops : List (MemoOp Nat),
        (cache_size (exec ⟨40, 2⟩ ops) : Int) ≤ (⟨40, 2⟩ : MemoOptions).size) ∧
     (∀ (st : MemoState Nat) (key : String) (r : Nat) (now : Int) (k0 : String)
         (e0 : CacheEntry Nat) (rest : List (String × CacheEntry Nat)),
       st.cache = (k0, e0) :: rest →
       (st.cache.length : Int) ≥ (⟨40, 2⟩ : MemoOptions).size →
       mapGet st.cache key = none → mapGet rest k0 = none →
       ((settleSuccess ⟨40, 2⟩ key r now st).1).cache.length = st.cache.length ∧
       mapGet ((settleSuccess ⟨40, 2⟩ key r now st).1).cache k0 = none ∧
       mapGet ((settleSuccess ⟨40, 2⟩ key r now st).1).cache key
         = some ⟨r, now + (⟨40, 2⟩ : MemoOptions).ttl⟩ ∧
       (∀ k2, k2 ≠ k0 → k2 ≠ key →
         mapGet ((settleSuccess ⟨40, 2⟩ key r now st).1).cache k2 = mapGet st.cache k2)) ∧
     (∀ (fArity : Nat) (args : List JSPrim) (now : Int) (wid : Nat) (st : MemoState Nat),
       (callPhase1 fArity args now wid st).2.cache = st.cache)) :=
  ⟨by decide, c5_capacity_fifo Nat ⟨40, 2⟩ (by decide)⟩


theorem deliveredOutcomes_append {R : Type} (l1 l2 : List (MemoEvent R)) :
    deliveredOutcomes (l1 ++ l2) = deliveredOutcomes l1 ++ deliveredOutcomes l2 := by
  simp [deliveredOutcomes, List.filterMap_append]

theorem deliveredOutcomes_evict {R : Type} (cfg : MemoOptions)
    (c : List (String × CacheEntry R)) :
    deliveredOutcomes ((evictIfFull cfg c).2) = [] := by
  unfold evictIfFull
  by_cases hcap : (c.length : Int) ≥ cfg.size
  · rw [if_pos hcap]
    cases c with
    | nil => rfl
    | cons p rest =>
      obtain ⟨k0, v0⟩ := p
      rfl
  · rw [if_neg hcap]
    rfl

theorem deliveredOutcomes_resolved {R : Type} (ws : List Nat) (r : R) :
    deliveredOutcomes (ws.map (fun w => MemoEvent.resolved w r))
      = ws.map (fun w => (w, Except.ok (ε := String) r)) := by
  induction ws with
  | nil => rfl
  | cons w rest ih =>
    show (w, Except.ok r) :: deliveredOutcomes (rest.map (fun w => MemoEvent.resolved w r)) = _
    rw [ih]
    rfl

theorem deliveredOutcomes_rejected {R : Type} (ws : List Nat) (err : String) :
    deliveredOutcomes (ws.map (fun w => MemoEvent.rejected (R := R) w err))
      = ws.map (fun w => (w, Except.error (α := R) err)) := by
  induction ws with
  | nil => rfl
  | cons w rest ih =>
    show (w, Except.error err)
        :: deliveredOutcomes (rest.map (fun w => MemoEvent.rejected (R := R) w err)) = _
    rw [ih]
    rfl

/-- While a leader is in flight for a key, every further call with the same
arguments (hence a cache miss) joins as a waiter: its prefix is `joined`,
the cache is untouched, and its handle is appended to the record. -/
theorem runCalls_joins {R : Type} (fArity : Nat) (args : List JSPrim)
    (harity : args.length = fArity) :
    ∀ (ws : List (Int × Nat)) (st : MemoState R) (acc : List Nat),
    (∀ p ∈ ws, cacheMiss st.cache (jsonStringify args) p.1) →
    mapGet st.queue (jsonStringify args) = some acc →
    (runCalls fArity args ws st).1 = ws.map (fun _ => CallStep.joined) ∧
    (runCalls fArity args ws st).2.cache = st.cache ∧
    mapGet (runCalls fArity args ws st).2.queue (jsonStringify args)
      = some (acc ++ ws.map Prod.snd) := by
  intro ws
  induction ws with
  | nil =>
    intro st acc hmiss hq
    exact ⟨rfl, rfl, by simpa using hq⟩
  | cons p rest ih =>
    obtain ⟨now, wid⟩ := p
    intro st acc hmiss hq
    have hj := callPhase1_join fArity args now wid st acc harity
      (hmiss (now, wid) (List.mem_cons_self _ _)) hq
    have h1 : (callPhase1 fArity args now wid st).1 = CallStep.joined := by rw [hj]
    have h2 : (callPhase1 fArity args now wid st).2
        = ⟨st.cache, mapSet st.queue (jsonStringify args) (acc ++ [wid])⟩ := by rw [hj]
    obtain ⟨ih1, ih2, ih3⟩ := ih
      (⟨st.cache, mapSet st.queue (jsonStringify args) (acc ++ [wid])⟩ : MemoState R)
      (acc ++ [wid])
      (fun q hqq => hmiss q (List.mem_cons_of_mem _ hqq))
      (mapGet_mapSet_self _ _ _)
    refine ⟨?_, ?_, ?_⟩
    · show (callPhase1 fArity args now wid st).1
          :: (runCalls fArity args rest (callPhase1 fArity args now wid st).2).1
        = ((now, wid) :: rest).map (fun _ => CallStep.joined)
      rw [h1, h2, ih1]
      rfl
    · show (runCalls fArity args rest (callPhase1 fArity args now wid st).2).2.cache
        = st.cache
      rw [h2, ih2]
    · show mapGet (runCalls fArity args rest (callPhase1 fArity args now wid st).2).2.queue
          (jsonStringify args) = some (acc ++ ((now, wid) :: rest).map Prod.snd)
      rw [h2, ih3]
      simp

/-- C1: N ≥ 1 concurrent calls with the same argument list, all issued while
no unexpired cache entry exists for the key and no computation is in flight:
the first call is the only one whose prefix is `lead` (only it invokes `f` —
exactly one underlying invocation), the rest join as waiters without
touching the cache; once the leader settles, success delivers the leader's
result value to every one of the N callers, and failure delivers the
identical error to every one of the N callers. -/
theorem c1_coalescing {R : Type} (cfg : MemoOptions) (st0 : MemoState R)
    (args : List JSPrim) (fArity : Nat) (now0 now2 : Int) (wid0 : Nat)
    (ws : List (Int × Nat)) (r : R) (err : String)
    (harity : args.length = fArity)
    (hmiss : ∀ p ∈ (now0, wid0) :: ws, cacheMiss st0.cache (jsonStringify args) p.1)
    (hq : mapGet st0.queue (jsonStringify args) = none) :
    (runCalls fArity args ((now0, wid0) :: ws) st0).1
      = CallStep.lead :: ws.map (fun _ => CallStep.joined) ∧
    ((runCalls fArity args ((now0, wid0) :: ws) st0).1.filter isLead).length = 1 ∧
    (runCalls fArity args ((now0, wid0) :: ws) st0).2.cache = st0.cache ∧
    mapGet (runCalls fArity args ((now0, wid0) :: ws) st0).2.queue (jsonStringify args)
      = some (ws.map Prod.snd) ∧
    deliveredOutcomes (leaderComplete cfg (jsonStringify args) wid0 (Except.ok r) now2
        (runCalls fArity args ((now0, wid0) :: ws) st0).2).2
      = ws.map (fun p => (p.2, Except.ok r)) ++ [(wid0, Except.ok r)] ∧
    deliveredOutcomes (leaderComplete cfg (jsonStringify args) wid0 (Except.error err) now2
        (runCalls fArity args ((now0, wid0) :: ws) st0).2).2
      = ws.map (fun p => (p.2, Except.error err)) ++ [(wid0, Except.error err)] := by
  have hlead := callPhase1_lead fArity args now0 wid0 st0 harity
    (hmiss (now0, wid0) (List.mem_cons_self _ _)) hq
  have h1 : (callPhase1 fArity args now0 wid0 st0).1 = CallStep.lead := by rw [hlead]
  have h2 : (callPhase1 fArity args now0 wid0 st0).2
      = ⟨st0.cache, mapSet st0.queue (jsonStringify args) []⟩ := by rw [hlead]
  obtain ⟨hj1, hj2, hj3⟩ := runCalls_joins fArity args harity ws
    (⟨st0.cache, mapSet st0.queue (jsonStringify args) []⟩ : MemoState R) []
    (fun q hqq => hmiss q (List.mem_cons_of_mem _ hqq))
    (mapGet_mapSet_self _ _ _)
  have hsteps : (runCalls fArity args ((now0, wid0) :: ws) st0).1
      = CallStep.lead :: ws.map (fun _ => CallStep.joined) := by
    show (callPhase1 fArity args now0 wid0 st0).1
        :: (runCalls fArity args ws (callPhase1 fArity args now0 wid0 st0).2).1 = _
    rw [h1, h2, hj1]
  have hcache : (runCalls fArity args ((now0, wid0) :: ws) st0).2.cache = st0.cache := by
    show (runCalls fArity args ws (callPhase1 fArity args now0 wid0 st0).2).2.cache = _
    rw [h2, hj2]
  have hqueue : mapGet (runCalls fArity args ((now0, wid0) :: ws) st0).2.queue
      (jsonStringify args) = some (ws.map Prod.snd) := by
    show mapGet (runCalls fArity args ws (callPhase1 fArity args now0 wid0 st0).2).2.queue
        (jsonStringify args) = _
    rw [h2, hj3]
    simp
  refine ⟨hsteps, ?_, hcache, hqueue, ?_, ?_⟩
  · rw [hsteps]
    have hnil : ∀ l : List (Int × Nat),
        (l.map (fun _ => CallStep.joined (R := R))).filter isLead = [] := by
      intro l
      induction l with
      | nil => rfl
      | cons a rest ih => simp [isLead, ih]
    simp [isLead, hnil]
  · have hlc : (leaderComplete cfg (jsonStringify args) wid0 (Except.ok r) now2
        (runCalls fArity args ((now0, wid0) :: ws) st0).2).2
        = (settleSuccess cfg (jsonStringify args) r now2
            (runCalls fArity args ((now0, wid0) :: ws) st0).2).2
          ++ [MemoEvent.resolved wid0 r] := rfl
    have hss : (settleSuccess cfg (jsonStringify args) r now2
        (runCalls fArity args ((now0, wid0) :: ws) st0).2).2
        = (evictIfFull cfg ((runCalls fArity args ((now0, wid0) :: ws) st0).2).cache).2
          ++ MemoEvent.stored (jsonStringify args) r (now2 + cfg.ttl)
          :: MemoEvent.queueDropped (jsonStringify args)
          :: ((mapGet ((runCalls fArity args ((now0, wid0) :: ws) st0).2).queue
              (jsonStringify args)).getD []).map (fun w => MemoEvent.resolved w r) := rfl
    rw [hlc, hss, hqueue, deliveredOutcomes_append, deliveredOutcomes_append,
      deliveredOutcomes_evict]
    have hdel : deliveredOutcomes (MemoEvent.stored (jsonStringify args) r (now2 + cfg.ttl)
        :: MemoEvent.queueDropped (jsonStringify args)
        :: ((some (ws.map Prod.snd)).getD []).map (fun w => MemoEvent.resolved w r))
        = (ws.map Prod.snd).map (fun w => (w, Except.ok (ε := String) r)) := by
      show deliveredOutcomes ((ws.map Prod.snd).map (fun w => MemoEvent.resolved w r)) = _
      exact deliveredOutcomes_resolved _ r
    rw [hdel]
    simp [List.map_map]
    rfl
  · have hlc : (leaderComplete cfg (jsonStringify args) wid0 (Except.error err) now2
        (runCalls fArity args ((now0, wid0) :: ws) st0).2).2
        = (settleFailure (jsonStringify args) err
            (runCalls fArity args ((now0, wid0) :: ws) st0).2).2
          ++ [MemoEvent.rejected wid0 err] := rfl
    have hsf : (settleFailure (jsonStringify args) err
        (runCalls fArity args ((now0, wid0) :: ws) st0).2).2
        = MemoEvent.queueDropped (jsonStringify args)
          :: ((mapGet ((runCalls fArity args ((now0, wid0) :: ws) st0).2).queue
              (jsonStringify args)).getD []).map (fun w => MemoEvent.rejected w err) := rfl
    rw [hlc, hsf, hqueue, deliveredOutcomes_append]
    have hdel : deliveredOutcomes (MemoEvent.queueDropped (jsonStringify args)
        :: ((some (ws.map Prod.snd)).getD []).map (fun w => MemoEvent.rejected w err))
        = (ws.map Prod.snd).map (fun w => (w, Except.error (α := R) err)) := by
      show deliveredOutcomes ((ws.map Prod.snd).map
        (fun w => MemoEvent.rejected (R := R) w err)) = _
      exact deliveredOutcomes_rejected _ err
    rw [hdel]
    simp [List.map_map]
    rfl


theorem c1_coalescing_witness :
    ([JSPrim.num (JSNum.int 5)].length = 1) ∧
    (∀ p ∈ [((0 : Int), (10 : Nat)), (0, 11), (0, 12)],
      cacheMiss (⟨[], []⟩ : MemoState Nat).cache
        (jsonStringify [JSPrim.num (JSNum.int 5)]) p.1) ∧
    (mapGet (⟨[], []⟩ : MemoState Nat).queue
      (jsonStringify [JSPrim.num (JSNum.int 5)]) = none) ∧
    ((runCalls 1 [JSPrim.num (JSNum.int 5)] [((0 : Int), (10 : Nat)), (0, 11), (0, 12)]
        (⟨[], []⟩ : MemoState Nat)).1
      = CallStep.lead :: [((0 : Int), (11 : Nat)), (0, 12)].map (fun _ => CallStep.joined) ∧
     ((runCalls 1 [JSPrim.num (JSNum.int 5)] [((0 : Int), (10 : Nat)), (0, 11), (0, 12)]
        (⟨[], []⟩ : MemoState Nat)).1.filter isLead).length = 1 ∧
     (runCalls 1 [JSPrim.num (JSNum.int 5)] [((0 : Int), (10 : Nat)), (0, 11), (0, 12)]
        (⟨[], []⟩ : MemoState Nat)).2.cache = (⟨[], []⟩ : MemoState Nat).cache ∧
     mapGet (runCalls 1 [JSPrim.num (JSNum.int 5)]
          [((0 : Int), (10 : Nat)), (0, 11), (0, 12)]
          (⟨[], []⟩ : MemoState Nat)).2.queue (jsonStringify [JSPrim.num (JSNum.int 5)])
       = some ([((0 : Int), (11 : Nat)), (0, 12)].map Prod.snd) ∧
     deliveredOutcomes (leaderComplete ⟨60, 100⟩ (jsonStringify [JSPrim.num (JSNum.int 5)])
          10 (Except.ok 10) 1
          (runCalls 1 [JSPrim.num (JSNum.int 5)] [((0 : Int), (10 : Nat)), (0, 11), (0, 12)]
            (⟨[], []⟩ : MemoState Nat)).2).2
       = [((0 : Int), (11 : Nat)), (0, 12)].map (fun p => (p.2, Except.ok 10))
         ++ [(10, Except.ok 10)] ∧
     deliveredOutcomes (leaderComplete ⟨60, 100⟩ (jsonStringify [JSPrim.num (JSNum.int 5)])
          10 (Except.error "boom") 1
          (runCalls 1 [JSPrim.num (JSNum.int 5)] [((0 : Int), (10 : Nat)), (0, 11), (0, 12)]
            (⟨[], []⟩ : MemoState Nat)).2).2
       = [((0 : Int), (11 : Nat)), (0, 12)].map (fun p => (p.2, Except.error "boom"))
         ++ [(10, Except.error "boom")]) :=
  ⟨rfl, fun _ _ _ he => Option.noConfusion he, rfl,
    c1_coalescing ⟨60, 100⟩ ⟨[], []⟩ [JSPrim.num (JSNum.int 5)] 1 0 1 10 [(0, 11), (0, 12)]
      10 "boom" rfl (fun _ _ _ he => Option.noConfusion he) rfl⟩


end MemoizeVerify
